import Mathlib

set_option maxRecDepth 4000

/-!
Shallow embedding of the cross-evaluation API route of the Minor_Project
repository (the `runCrossEvaluation` function and the `POST` handler).

Conventions of the embedding:
* JS strings are handled as `String` / `List Char`; `String.trim`,
  `String.prototype.slice`, `indexOf` / `lastIndexOf` are modelled directly.
* `JSON.parse` is modelled by an executable recursive-descent parser over
  `List Char` (fuel-based for totality); JSON numbers are kept as their
  lexemes, since no code path inspects a numeric value.
* The per-round score record (`globalScores : Record<string, number>`) is an
  association list in insertion order, matching `Object.entries` enumeration
  order for the non-index-like model-id keys used by the route.
* Network effects are oracles: the outcome of each judge request and of each
  backend generation request is an input of the embedded function.  The
  concurrent join (`Promise.all`) is serialized in dispatch order; every
  per-judge vote record and every score increment is independent of the
  completion order, so the serialization fixes one interleaving of the pushes
  without changing any field a claim talks about.
-/

namespace MinorProject

/-! ### JS string primitives -/

/-- JSON whitespace (the characters `JSON.parse` skips between tokens). -/
def jsonWs (c : Char) : Bool :=
  c == ' ' || c == '\t' || c == '\n' || c == '\r'

/-- Whitespace removed by JS `String.prototype.trim` (WhiteSpace ∪
LineTerminator: ASCII whitespace, NBSP, Ogham space mark, the Unicode
Space_Separator spaces, ZWNBSP, and the two line separators). -/
def jsTrimWs (c : Char) : Bool :=
  c == ' ' || c == '\t' || c == '\n' || c == '\r' || c == '\x0b' || c == '\x0c' ||
  c == '\xa0' || c == '\u1680' ||
  c == '\u2000' || c == '\u2001' || c == '\u2002' || c == '\u2003' ||
  c == '\u2004' || c == '\u2005' || c == '\u2006' || c == '\u2007' ||
  c == '\u2008' || c == '\u2009' || c == '\u200A' || c == '\u202F' ||
  c == '\u205F' || c == '\u3000' ||
  c == '\u2028' || c == '\u2029' || c == '\uFEFF'

/-- JS `String.prototype.trim` on a character list. -/
def jsTrim (cs : List Char) : List Char :=
  ((cs.dropWhile jsTrimWs).reverse.dropWhile jsTrimWs).reverse

/-- JS `String.prototype.slice(a, b)` (with non-negative indices): the
characters in positions `[a, b)`, empty when `a ≥ b`. -/
def jsSlice (cs : List Char) (a b : Nat) : List Char :=
  (cs.take b).drop a

/-- JS `String.prototype.lastIndexOf` for a single character, as an option. -/
def lastBraceIdx (cs : List Char) : Option Nat :=
  (cs.reverse.findIdx? (fun c => c == '}')).map (fun k => cs.length - 1 - k)

/-- The three-backtick code-fence marker tested by `text.startsWith`. -/
def fenceMarker : List Char := "\x60\x60\x60".toList

/-! ### The JSON value domain and the `JSON.parse` model -/

/-- A parsed JSON value.  Numbers are kept as their lexemes: the route never
looks inside a number, it only tests whether fields are strings. -/
inductive Json where
  | null
  | bool (b : Bool)
  | num (lexeme : String)
  | str (s : String)
  | arr (items : List Json)
  | obj (members : List (String × Json))

/-- Decoding of a one-character string escape, as in `JSON.parse`. -/
def unescapeChar (c : Char) : Option Char :=
  if c = '"' then some '"'
  else if c = '\\' then some '\\'
  else if c = '/' then some '/'
  else if c = 'b' then some '\x08'
  else if c = 'f' then some '\x0c'
  else if c = 'n' then some '\n'
  else if c = 'r' then some '\r'
  else if c = 't' then some '\t'
  else none

/-- Value of a hexadecimal digit. -/
def hexDigitVal (c : Char) : Option Nat :=
  if '0' ≤ c ∧ c ≤ '9' then some (c.toNat - '0'.toNat)
  else if 'a' ≤ c ∧ c ≤ 'f' then some (c.toNat - 'a'.toNat + 10)
  else if 'A' ≤ c ∧ c ≤ 'F' then some (c.toNat - 'A'.toNat + 10)
  else none

/-- Body of a string literal after the opening quote: decoded characters plus
the input after the closing quote.  Unknown escapes and raw control
characters are rejected, as in `JSON.parse`. -/
def parseStrRest : List Char → Option (List Char × List Char)
  | [] => none
  | '"' :: rest => some ([], rest)
  | '\\' :: 'u' :: h1 :: h2 :: h3 :: h4 :: rest =>
      match hexDigitVal h1, hexDigitVal h2, hexDigitVal h3, hexDigitVal h4 with
      | some a, some b, some c, some d =>
          match parseStrRest rest with
          | some (s, r) => some (Char.ofNat (((a * 16 + b) * 16 + c) * 16 + d) :: s, r)
          | none => none
      | _, _, _, _ => none
  | '\\' :: e :: rest =>
      match unescapeChar e with
      | some c =>
          match parseStrRest rest with
          | some (s, r) => some (c :: s, r)
          | none => none
      | none => none
  | c :: rest =>
      if c.toNat < 32 then none
      else
        match parseStrRest rest with
        | some (s, r) => some (c :: s, r)
        | none => none

/-- Characters a JSON number lexeme can contain. -/
def numChar (c : Char) : Bool :=
  c.isDigit || c == '-' || c == '+' || c == '.' || c == 'e' || c == 'E'

/-- One-or-more decimal digits. -/
def parseDigits (cs : List Char) : Option (List Char × List Char) :=
  let ds := cs.takeWhile Char.isDigit
  if ds = [] then none else some (ds, cs.dropWhile Char.isDigit)

/-- The integer part of a JSON number: `0`, or a nonzero-leading digit run. -/
def parseIntPart (cs : List Char) : Option (List Char × List Char) :=
  match cs with
  | '0' :: rest => some (['0'], rest)
  | _ => parseDigits cs

/-- The optional fraction part: `.` followed by digits, or nothing. -/
def parseFrac (cs : List Char) : Option (List Char × List Char) :=
  match cs with
  | '.' :: rest =>
      match parseDigits rest with
      | some (ds, r) => some ('.' :: ds, r)
      | none => none
  | _ => some ([], cs)

/-- The optional sign of an exponent. -/
def expSignSplit (cs : List Char) : List Char × List Char :=
  match cs with
  | s :: rest2 => if s = '+' ∨ s = '-' then ([s], rest2) else ([], cs)
  | [] => ([], cs)

/-- The optional exponent part: `e`/`E`, optional sign, digits, or nothing. -/
def parseExpPart (cs : List Char) : Option (List Char × List Char) :=
  match cs with
  | c :: rest =>
      if c = 'e' ∨ c = 'E' then
        match parseDigits (expSignSplit rest).2 with
        | some (ds, r) => some (c :: ((expSignSplit rest).1 ++ ds), r)
        | none => none
      else some ([], cs)
  | [] => some ([], cs)

/-- The optional leading minus of a JSON number. -/
def numSignSplit (cs : List Char) : List Char × List Char :=
  match cs with
  | '-' :: rest => (['-'], rest)
  | _ => ([], cs)

/-- A JSON number lexeme (sign, integer, fraction, exponent). -/
def parseNum (cs : List Char) : Option (List Char × List Char) :=
  match parseIntPart (numSignSplit cs).2 with
  | none => none
  | some (ip, cs2) =>
    match parseFrac cs2 with
    | none => none
    | some (fp, cs3) =>
      match parseExpPart cs3 with
      | none => none
      | some (ep, cs4) => some ((numSignSplit cs).1 ++ ip ++ fp ++ ep, cs4)

/-- Skip JSON whitespace. -/
def skipWs (cs : List Char) : List Char := cs.dropWhile jsonWs

mutual

/-- Parse one JSON value at the head of the input (no leading whitespace);
returns the value and the unconsumed input. -/
def parseVal : Nat → List Char → Option (Json × List Char)
  | 0, _ => none
  | Nat.succ f, cs =>
    match cs with
    | [] => none
    | c :: rest =>
      if c = '{' then
        match skipWs rest with
        | '}' :: r2 => some (Json.obj [], r2)
        | r1 =>
          match parseMembers f r1 with
          | some (kvs, r2) => some (Json.obj kvs, r2)
          | none => none
      else if c = '[' then
        match skipWs rest with
        | ']' :: r2 => some (Json.arr [], r2)
        | r1 =>
          match parseItems f r1 with
          | some (xs, r2) => some (Json.arr xs, r2)
          | none => none
      else if c = '"' then
        match parseStrRest rest with
        | some (s, r) => some (Json.str (String.mk s), r)
        | none => none
      else if c = 't' then
        match rest with
        | 'r' :: 'u' :: 'e' :: r => some (Json.bool true, r)
        | _ => none
      else if c = 'f' then
        match rest with
        | 'a' :: 'l' :: 's' :: 'e' :: r => some (Json.bool false, r)
        | _ => none
      else if c = 'n' then
        match rest with
        | 'u' :: 'l' :: 'l' :: r => some (Json.null, r)
        | _ => none
      else
        match parseNum cs with
        | some (lex, r) => some (Json.num (String.mk lex), r)
        | none => none

/-- Parse one-or-more comma-separated object members, consuming the closing
brace.  The empty-object case is handled in `parseVal`. -/
def parseMembers : Nat → List Char → Option (List (String × Json) × List Char)
  | 0, _ => none
  | Nat.succ f, cs =>
    match cs with
    | '"' :: rest =>
      match parseStrRest rest with
      | some (k, r1) =>
        match skipWs r1 with
        | ':' :: r2 =>
          match parseVal f (skipWs r2) with
          | some (v, r3) =>
            match skipWs r3 with
            | ',' :: r4 =>
              match parseMembers f (skipWs r4) with
              | some (kvs, r5) => some ((String.mk k, v) :: kvs, r5)
              | none => none
            | '}' :: r4 => some ([(String.mk k, v)], r4)
            | _ => none
          | none => none
        | _ => none
      | none => none
    | _ => none

/-- Parse one-or-more comma-separated array items, consuming the closing
bracket.  The empty-array case is handled in `parseVal`. -/
def parseItems : Nat → List Char → Option (List Json × List Char)
  | 0, _ => none
  | Nat.succ f, cs =>
    match parseVal f cs with
    | some (v, r1) =>
      match skipWs r1 with
      | ',' :: r2 =>
        match parseItems f (skipWs r2) with
        | some (xs, r3) => some (v :: xs, r3)
        | none => none
      | ']' :: r2 => some ([v], r2)
      | _ => none
    | none => none

end

/-- `JSON.parse` on a character list: skip leading whitespace, parse one
value, and require that only whitespace remains. -/
def parseJsonL (cs : List Char) : Option Json :=
  let cs1 := skipWs cs
  match parseVal (cs1.length + 1) cs1 with
  | some (v, rest) => if rest.all (fun c => jsonWs c) then some v else none
  | none => none

/-- `JSON.parse` on a string. -/
def parseJson (s : String) : Option Json := parseJsonL s.toList

/-- JS property access `parsed.key` restricted to string values, exactly as the
route's `typeof parsed.key === "string"` probes use it: a string field of an
object (with the last duplicate key winning, as in `JSON.parse`); any other
parsed value — including the falsy ones short-circuited by `parsed && ...` —
yields none. -/
def jsGetStrField (j : Json) (key : String) : Option String :=
  match j with
  | Json.obj kvs =>
    match kvs.reverse.find? (fun p => p.1 == key) with
    | some p =>
      match p.2 with
      | Json.str s => some s
      | _ => none
    | none => none
  | _ => none

/-! ### Data model of the route -/

/-- A message `content` value as the route dispatches on it: either a string,
or any non-string JSON value carried by its `JSON.stringify` serialization
(the only use the route makes of a non-string content). -/
inductive JsContent where
  | str (s : String)
  | other (serialized : String)
deriving DecidableEq

/-- The `message` member of an upstream choice. -/
structure ChoiceMessage where
  content : JsContent
deriving DecidableEq

/-- One entry of the `choices` array handed to `runCrossEvaluation`:
`model` is none when the field is not a string, `message` none when absent. -/
structure Choice where
  model : Option String
  message : Option ChoiceMessage
deriving DecidableEq

/-- Lines 28-32: a normalized candidate answer. -/
structure ModelAnswer where
  index : Nat
  model : String
  content : String
deriving DecidableEq

/-- One entry of the result's `judges` array (lines 38-42). -/
structure JudgeVote where
  judgeModelId : String
  votedModelId : Option String
  reasoning : Option String
deriving DecidableEq

/-- Lines 34-43: the evaluation result. -/
structure CrossEvaluation where
  scores : List (String × Nat)
  winnerModelId : Option String
  winnerIndex : Option Nat
  judges : List JudgeVote
deriving DecidableEq

/-- The network outcome of one judge request, covering the disjoint code
paths of lines 123-196: the fetch rejecting or `res.json()` throwing (both
land in the catch, as does a transport timeout), a non-2xx HTTP status,
a response whose `choices[0].message.content` is missing or not a string,
and a string content. -/
inductive JudgeOutcome where
  | errored
  | httpFail
  | nonStringContent
  | content (s : String)

/-- The serialized text of a content value (lines 60-64: a string content is
used as-is, any other is `JSON.stringify`-ed). -/
def contentString (c : JsContent) : String :=
  match c with
  | JsContent.str s => s
  | JsContent.other s => s

/-- Lines 54-72: each choice with a string `model` and a `message` becomes a
`ModelAnswer` (content stringified when not a string); entries with a missing
model or message — the JS truthiness test `!model` also drops an empty-string
model — or whose content trims to the empty string are dropped. -/
def collectAnswers (choices : List Choice) : List ModelAnswer :=
  (choices.enum.filterMap (fun ic =>
    match ic.2.model, ic.2.message with
    | some m, some msg =>
      if m = "" then none
      else some { index := ic.1, model := m, content := contentString msg.content }
    | _, _ => none)).filter
    (fun a => (jsTrim a.content.toList).length > 0)

/-- Lines 78-81: `globalScores[a.model] = 0` for every answer, in insertion
order; re-assigning an existing key leaves the entry in place. -/
def initScores (answers : List ModelAnswer) : List (String × Nat) :=
  answers.foldl
    (fun m a => if m.any (fun p => p.1 == a.model) then m else m ++ [(a.model, 0)]) []

/-- The JS membership probe `globalScores[k] != null`. -/
def scoreKeyed (m : List (String × Nat)) (k : String) : Bool :=
  m.any (fun p => p.1 == k)

/-- `globalScores[k] += 1`. -/
def bumpScore (m : List (String × Nat)) (k : String) : List (String × Nat) :=
  m.map (fun p => if p.1 == k then (p.1, p.2 + 1) else p)

/-- Lines 152-159: the text handed to `JSON.parse` for a judge reply: the
reply is trimmed; when it starts with a code fence and both braces occur, the
slice from the first `x7b` to the last `x7d` (inclusive) replaces it. -/
def textToParse (s : String) : List Char :=
  let text := jsTrim s.toList
  if fenceMarker.isPrefixOf text then
    match text.findIdx? (fun c => c == '{'), lastBraceIdx text with
    | some i, some j => jsSlice text i (j + 1)
    | _, _ => text
  else text

/-- Lines 134-175: the `votedModelId` extracted from a judge outcome.  Every
failure path (HTTP failure, thrown fetch or json, non-string content, parse
failure, missing or non-string `winner_model_id`) yields none. -/
def judgeVotedId (o : JudgeOutcome) : Option String :=
  match o with
  | JudgeOutcome.content s =>
    match parseJsonL (textToParse s) with
    | some parsed => jsGetStrField parsed "winner_model_id"
    | none => none
  | _ => none

/-- Lines 176-179: the retained `reasoning` string, when the reply parsed and
carries one. -/
def judgeReasoning (o : JudgeOutcome) : Option String :=
  match o with
  | JudgeOutcome.content s =>
    match parseJsonL (textToParse s) with
    | some parsed => jsGetStrField parsed "reasoning"
    | none => none
  | _ => none

/-- The vote record one judge pushes onto `judgesResults` (its fields depend
only on the judge's own model id and its own network outcome). -/
def mkVote (a : ModelAnswer) (o : JudgeOutcome) : JudgeVote :=
  { judgeModelId := a.model, votedModelId := judgeVotedId o, reasoning := judgeReasoning o }

/-- Lines 181-183: `if (votedModelId && globalScores[votedModelId] != null)
globalScores[votedModelId] += 1` — the JS truthiness test also rejects the
empty string. -/
def applyVote (m : List (String × Nat)) (voted : Option String) : List (String × Nat) :=
  match voted with
  | some v => if v ≠ "" ∧ scoreKeyed m v then bumpScore m v else m
  | none => m

/-- The full judge fan-out (lines 89-198), serialized in dispatch order:
every answer acts as judge exactly once, updates the shared score map through
`applyVote`, and appends its vote record. -/
def runJudges (scores0 : List (String × Nat)) (answers : List ModelAnswer)
    (outcomes : Nat → JudgeOutcome) : List (String × Nat) × List JudgeVote :=
  answers.enum.foldl
    (fun acc ia =>
      (applyVote acc.1 (judgeVotedId (outcomes ia.1)), acc.2 ++ [mkVote ia.2 (outcomes ia.1)]))
    (scores0, [])

/-- Lines 200-207: fold over the score entries in insertion order, replacing
the running winner only on a strictly greater score, starting from -1. -/
def winnerStep (acc : Option String × Int) (p : String × Nat) : Option String × Int :=
  if (p.2 : Int) > acc.2 then (some p.1, (p.2 : Int)) else acc

/-- The winner id selected by the lines 200-207 loop. -/
def pickWinner (scores : List (String × Nat)) : Option String :=
  (scores.foldl winnerStep (none, -1)).1

/-- Lines 209-212: the `index` of the first answer whose model matches the
winner, or none. -/
def winnerIndexOf (answers : List ModelAnswer) (w : Option String) : Option Nat :=
  match w with
  | some id => (answers.find? (fun a => a.model == id)).map (fun a => a.index)
  | none => none

/-- Shallow embedding of `runCrossEvaluation` (lines 45-220).  The network
outcome of the judge at position `i` of the answers list is `outcomes i`. -/
def runCrossEvaluation (choices : List Choice) (userQuestion : Option String)
    (outcomes : Nat → JudgeOutcome) : Option CrossEvaluation :=
  if userQuestion = none ∨ userQuestion = some "" ∨ choices.length < 2 then none
  else
    let answers := collectAnswers choices
    if answers.length < 2 then none
    else
      let scores0 := initScores answers
      let r := runJudges scores0 answers outcomes
      let winner := pickWinner r.1
      some { scores := r.1, winnerModelId := winner,
             winnerIndex := winnerIndexOf answers winner, judges := r.2 }

/-- The judge requests `runCrossEvaluation` dispatches: one fetch per valid
answer (line 124, using the judge's own model), and none at all when a
precondition fails (lines 50-52 and 74-76 return before the fan-out). -/
def crossEvalCalls (choices : List Choice) (userQuestion : Option String) : List String :=
  if userQuestion = none ∨ userQuestion = some "" ∨ choices.length < 2 then []
  else
    let answers := collectAnswers choices
    if answers.length < 2 then []
    else answers.map (fun a => a.model)

/-! ### The POST handler -/

def NVIDIA_MODEL : String := "nvidia/nemotron-3-nano-30b-a3b:free"

def MISTRAL_MODEL : String := "mistralai/devstral-2512:free"

def MOLMO_MODEL : String := "allenai/molmo-2-8b:free"

def TNG_MODEL : String := "tngtech/tng-r1t-chimera:free"

def GEMMA_MODEL : String := "google/gemma-3n-e4b-it:free"

def MIMO_MODEL : String := "xiaomi/mimo-v2-flash:free"

/-- The static backend registry, in the order of the `allModels` table
(lines 271-332). -/
def allModelIds : List String :=
  [NVIDIA_MODEL, MISTRAL_MODEL, MOLMO_MODEL, TNG_MODEL, GEMMA_MODEL, MIMO_MODEL]

/-- One request message, as the question extraction reads it: a role and a
content that is or is not a string. -/
structure ChatMsg where
  role : String
  content : JsContent
deriving DecidableEq

/-- The `messages` member of the request body: absent (or otherwise falsy),
present but not an array, or an array. -/
inductive MessagesField where
  | missing
  | notArray
  | present (msgs : List ChatMsg)
deriving DecidableEq

/-- One element of a present `activeModels` array. -/
inductive ActiveItem where
  | strItem (s : String)
  | nonString
deriving DecidableEq

/-- The `activeModels` member: missing / not an array, or an array. -/
inductive ActiveModelsField where
  | notAnArray
  | present (items : List ActiveItem)
deriving DecidableEq

/-- The parsed request body fields the handler dispatches on. -/
structure ReqBody where
  messages : MessagesField
  activeModels : ActiveModelsField
deriving DecidableEq

/-- One entry of the `modelStatuses` map (lines 356-363). -/
structure ModelStatus where
  ok : Bool
  status : Nat
  body : Option String
deriving DecidableEq

/-- The network outcome of one backend generation request: the fetch
rejecting (which makes the surrounding `Promise.all` reject into the outer
catch), a non-2xx response carrying the result of `res.text()` (none when
that read threw), or a 2xx response carrying the result of `res.json()`
(none when it threw; otherwise the optional `choices[0].message`). -/
inductive BackendOutcome where
  | reject
  | failResp (status : Nat) (textResult : Option String)
  | okResp (status : Nat) (payload : Option (Option ChoiceMessage))
deriving DecidableEq

/-- The JSON body plus HTTP status of a handler response.  Error responses
carry only `error` (and `details` for the 502); the success response carries
`choices`, `evaluation` and `modelStatuses`. -/
structure PostResponse where
  status : Nat
  error : Option String
  details : Option (List (String × ModelStatus))
  choices : List Choice
  evaluation : Option CrossEvaluation
  modelStatuses : Option (List (String × ModelStatus))
deriving DecidableEq

/-- Lines 265-267: keep only the non-empty string entries of a present
`activeModels` array; a missing or non-array field gives null. -/
def activeFilter (f : ActiveModelsField) : Option (List String) :=
  match f with
  | ActiveModelsField.notAnArray => none
  | ActiveModelsField.present items =>
    some (items.filterMap (fun it =>
      match it with
      | ActiveItem.strItem s => if s.length > 0 then some s else none
      | ActiveItem.nonString => none))

/-- Lines 334-336: the registry filtered by the selection set; the whole
registry when no selection was sent.  Ids outside the registry select
nothing. -/
def modelsToCall (f : ActiveModelsField) : List String :=
  match activeFilter f with
  | none => allModelIds
  | some ids => allModelIds.filter (fun m => ids.contains m)

/-- Lines 365-386: the `modelStatuses` entry recorded for one backend
response; an empty failure body is stored as absent. -/
def statusEntry (o : BackendOutcome) : ModelStatus :=
  match o with
  | BackendOutcome.reject => { ok := false, status := 0, body := none }
  | BackendOutcome.failResp st t =>
      { ok := false, status := st,
        body := match t with
                | some txt => if txt.length > 0 then some txt else none
                | none => none }
  | BackendOutcome.okResp st _ => { ok := true, status := st, body := none }

/-- `res.ok` of a backend outcome. -/
def isOkOutcome (o : BackendOutcome) : Bool :=
  match o with
  | BackendOutcome.okResp _ _ => true
  | _ => false

/-- Whether the fetch promise of a backend rejected. -/
def backendRejected (o : BackendOutcome) : Bool :=
  match o with
  | BackendOutcome.reject => true
  | _ => false

/-- Whether `res.json()` threw on a successful backend response. -/
def jsonThrew (o : BackendOutcome) : Bool :=
  match o with
  | BackendOutcome.okResp _ none => true
  | _ => false

/-- The pushed choice of one successful backend response, when its payload
has a usable message (lines 403-413). -/
def choiceOf (m : String) (o : BackendOutcome) : Option Choice :=
  match o with
  | BackendOutcome.okResp _ (some (some msg)) => some { model := some m, message := some msg }
  | _ => none

/-- Lines 415-419: the content of the last message with role `user`, and only
when that content is a string. -/
def lastUserQuestion (msgs : List ChatMsg) : Option String :=
  match msgs.reverse.find? (fun m => m.role == "user") with
  | some m =>
    match m.content with
    | JsContent.str s => some s
    | JsContent.other _ => none
  | none => none

/-- Shallow embedding of the `POST` handler (lines 222-445).  Inputs: the
`OPENROUTER_API_KEY` environment value, the parsed body (none when
`req.json()` threw), the outcome oracle for the six backend generation
requests, and the outcome oracle for the judge requests.  The second
component of the result lists the generation fetches dispatched, followed by
the judge fetches. -/
def POST (apiKey : Option String) (body : Option ReqBody)
    (backendResponses : String → BackendOutcome) (judgeOutcomes : Nat → JudgeOutcome) :
    PostResponse × List String :=
  if apiKey = none ∨ apiKey = some "" then
    ({ status := 500, error := some "Missing OPENROUTER_API_KEY in environment",
       details := none, choices := [], evaluation := none, modelStatuses := none }, [])
  else
    match body with
    | none =>
      ({ status := 400, error := some "Invalid JSON body",
         details := none, choices := [], evaluation := none, modelStatuses := none }, [])
    | some b =>
      match b.messages with
      | MessagesField.present msgs =>
        let toCall := modelsToCall b.activeModels
        if toCall = [] then
          ({ status := 400, error := some "No models selected to call",
             details := none, choices := [], evaluation := none, modelStatuses := none }, [])
        else if toCall.any (fun m => backendRejected (backendResponses m)) then
          ({ status := 500, error := some "Failed to call OpenRouter API",
             details := none, choices := [], evaluation := none, modelStatuses := none },
           toCall)
        else
          let statuses := toCall.map (fun m => (m, statusEntry (backendResponses m)))
          let successful := toCall.filter (fun m => isOkOutcome (backendResponses m))
          if successful = [] then
            ({ status := 502, error := some "OpenRouter API error",
               details := some statuses, choices := [], evaluation := none,
               modelStatuses := none }, toCall)
          else if successful.any (fun m => jsonThrew (backendResponses m)) then
            ({ status := 500, error := some "Failed to call OpenRouter API",
               details := none, choices := [], evaluation := none, modelStatuses := none },
             toCall)
          else
            let choices := successful.filterMap (fun m => choiceOf m (backendResponses m))
            let q := lastUserQuestion msgs
            ({ status := 200, error := none, details := none, choices := choices,
               evaluation := runCrossEvaluation choices q judgeOutcomes,
               modelStatuses := some statuses },
             toCall ++ crossEvalCalls choices q)
      | _ =>
        ({ status := 400, error := some "'messages' array is required",
           details := none, choices := [], evaluation := none, modelStatuses := none }, [])

/-! ### Derived measures used by the claims -/

/-- Sum of the score values. -/
def sumScores (m : List (String × Nat)) : Nat := (m.map (fun p => p.2)).sum

/-- The key list of the score map, in entry order. -/
def scoreKeys (m : List (String × Nat)) : List String := m.map (fun p => p.1)

/-- Whether a vote names a key of the given key list (the votes whose
increment landed). -/
def countedVote (keys : List String) (v : Option String) : Bool :=
  match v with
  | some s => keys.contains s
  | none => false


/-! ### Concrete inputs used by the witnesses and counterexamples -/

/-- A candidate choice for model-a. -/
def choiceA : Choice :=
  { model := some "model-a", message := some { content := JsContent.str "Answer A" } }

/-- A candidate choice for model-b. -/
def choiceB : Choice :=
  { model := some "model-b", message := some { content := JsContent.str "Answer B" } }

/-- A candidate choice for model-c. -/
def choiceC : Choice :=
  { model := some "model-c", message := some { content := JsContent.str "Answer C" } }

/-- An outcome oracle where every judge request fails over HTTP. -/
def allFailOutcomes : Nat → JudgeOutcome := fun _ => JudgeOutcome.httpFail

/-- An outcome oracle where judge 0 votes for an id outside the candidate set
and judge 1 fails. -/
def unknownVoteOutcomes : Nat → JudgeOutcome := fun i =>
  if i = 0 then JudgeOutcome.content "\x7b\"winner_model_id\":\"model-zzz\"\x7d"
  else JudgeOutcome.httpFail

/-- An outcome oracle where judge 0 (model-a) votes for its own model and
judge 1 fails. -/
def selfVoteOutcomes : Nat → JudgeOutcome := fun i =>
  if i = 0 then JudgeOutcome.content "\x7b\"winner_model_id\":\"model-a\"\x7d"
  else JudgeOutcome.httpFail

/-- An outcome oracle where both judges vote for model-b. -/
def bothVoteBOutcomes : Nat → JudgeOutcome := fun _ =>
  JudgeOutcome.content "\x7b\"winner_model_id\":\"model-b\"\x7d"

/-- The evaluation produced from `[choiceA, choiceB]` when both judge
requests fail over HTTP: all scores zero, first candidate wins. -/
def evAllFail : CrossEvaluation :=
  { scores := [("model-a", 0), ("model-b", 0)],
    winnerModelId := some "model-a",
    winnerIndex := some 0,
    judges := [{ judgeModelId := "model-a", votedModelId := none, reasoning := none },
               { judgeModelId := "model-b", votedModelId := none, reasoning := none }] }


/-- The evaluation produced from `[choiceA, choiceB]` under
`unknownVoteOutcomes`. -/
def evUnknownVote : CrossEvaluation :=
  { scores := [("model-a", 0), ("model-b", 0)],
    winnerModelId := some "model-a",
    winnerIndex := some 0,
    judges := [{ judgeModelId := "model-a", votedModelId := some "model-zzz", reasoning := none },
               { judgeModelId := "model-b", votedModelId := none, reasoning := none }] }


/-- The evaluation produced from `[choiceA, choiceB]` under
`selfVoteOutcomes`: the self-vote is recorded and counted. -/
def evSelfVote : CrossEvaluation :=
  { scores := [("model-a", 1), ("model-b", 0)],
    winnerModelId := some "model-a",
    winnerIndex := some 0,
    judges := [{ judgeModelId := "model-a", votedModelId := some "model-a", reasoning := none },
               { judgeModelId := "model-b", votedModelId := none, reasoning := none }] }


/-- A normalized candidate answer used by witnesses. -/
def answerA : ModelAnswer := { index := 0, model := "model-a", content := "Answer A" }

/-- A judge reply consisting of a fenced JSON object. -/
def fencedReply : String :=
  "\x60\x60\x60json\n\x7b\"winner_model_id\":\"X\",\"reasoning\":\"ok\"\x7d\n\x60\x60\x60"

/-- A judge reply with prose before a JSON object. -/
def proseReply : String := "The winner is \x7b\"winner_model_id\":\"X\"\x7d"

/-- The prose part of `proseReply`. -/
def prosePrefix : List Char := "The winner is ".toList

/-- The object part of `proseReply`. -/
def proseObj : List Char := "\x7b\"winner_model_id\":\"X\"\x7d".toList


/-- A request body with one user message and no model selection. -/
def reqBodyOk : ReqBody :=
  { messages := MessagesField.present [{ role := "user", content := JsContent.str "Q" }],
    activeModels := ActiveModelsField.notAnArray }

/-- A request body with no messages array. -/
def reqBodyNoMsgs : ReqBody :=
  { messages := MessagesField.missing, activeModels := ActiveModelsField.notAnArray }

/-- A request body whose activeModels selection is empty. -/
def reqBodyEmptySel : ReqBody :=
  { messages := MessagesField.present [{ role := "user", content := JsContent.str "Q" }],
    activeModels := ActiveModelsField.present [] }

/-- A backend oracle where every generation request fails with HTTP 429. -/
def failFetch : String → BackendOutcome :=
  fun _ => BackendOutcome.failResp 429 (some "rate limited")

/-- A backend oracle where every generation request succeeds with a usable
message. -/
def okFetch : String → BackendOutcome :=
  fun _ => BackendOutcome.okResp 200 (some (some { content := JsContent.str "ans" }))

/-- The 500 response for a missing credential. -/
def resp500MissingKey : PostResponse :=
  { status := 500, error := some "Missing OPENROUTER_API_KEY in environment",
    details := none, choices := [], evaluation := none, modelStatuses := none }

/-- The 400 response for a missing messages array. -/
def resp400Msgs : PostResponse :=
  { status := 400, error := some "'messages' array is required",
    details := none, choices := [], evaluation := none, modelStatuses := none }

/-- The 400 response for an empty backend selection. -/
def resp400Sel : PostResponse :=
  { status := 400, error := some "No models selected to call",
    details := none, choices := [], evaluation := none, modelStatuses := none }

/-- The 502 response when all six backends fail with `failFetch`. -/
def resp502All : PostResponse :=
  { status := 502, error := some "OpenRouter API error",
    details := some (allModelIds.map (fun m =>
      (m, ({ ok := false, status := 429, body := some "rate limited" } : ModelStatus)))),
    choices := [], evaluation := none, modelStatuses := none }

/-- A messages list whose last user message has non-string content. -/
def msgsNonString : List ChatMsg := [{ role := "user", content := JsContent.other "imgparts" }]

/-- A request body selecting two backends and carrying `msgsNonString`. -/
def reqBodyNonString : ReqBody :=
  { messages := MessagesField.present msgsNonString,
    activeModels := ActiveModelsField.present
      [ActiveItem.strItem NVIDIA_MODEL, ActiveItem.strItem MISTRAL_MODEL] }

/-- The success response for `reqBodyNonString` under `okFetch`: two choices,
a null evaluation (no string question). -/
def respNonString : PostResponse :=
  { status := 200, error := none, details := none,
    choices := [{ model := some NVIDIA_MODEL,
                  message := some { content := JsContent.str "ans" } },
                { model := some MISTRAL_MODEL,
                  message := some { content := JsContent.str "ans" } }],
    evaluation := none,
    modelStatuses := some [(NVIDIA_MODEL, { ok := true, status := 200, body := none }),
                           (MISTRAL_MODEL, { ok := true, status := 200, body := none })] }


/-- An outcome oracle producing the tie scores a=1, b=1: each judge votes
for the other. -/
def tieVoteOutcomes : Nat → JudgeOutcome := fun i =>
  if i = 0 then JudgeOutcome.content "\x7b\"winner_model_id\":\"model-b\"\x7d"
  else JudgeOutcome.content "\x7b\"winner_model_id\":\"model-a\"\x7d"

/-- The evaluation produced from `[choiceA, choiceB]` under
`tieVoteOutcomes`: a 1-1 tie resolved to the first candidate. -/
def evTie : CrossEvaluation :=
  { scores := [("model-a", 1), ("model-b", 1)],
    winnerModelId := some "model-a",
    winnerIndex := some 0,
    judges := [{ judgeModelId := "model-a", votedModelId := some "model-b", reasoning := none },
               { judgeModelId := "model-b", votedModelId := some "model-a", reasoning := none }] }


/-! ### The score object under full JS prototype-chain semantics.  The
definitions above model lines 78-81 and 181-183 for votes that name own
keys of the score object; the object literal of line 78, however, inherits
from `Object.prototype`, so the probe of line 181 also passes for the names
of inherited members, and `+= 1` then creates a NEW own key holding a
non-numeric string.  The definitions below repeat those lines over a value
domain that carries such entries (faithful, as above, for non-index-like
model keys, whose insertion order `Object.entries` preserves). -/

/-- A value stored in the scores object under full JS semantics: a number,
or the non-numeric string produced when `+= 1` first reads an inherited
`Object.prototype` member — the member's function source text with one "1"
appended per hit.  The route never inspects such a string's characters and
its numeric coercion is NaN, so only the hit count is tracked. -/
inductive ScoreVal where
  | num (n : Nat)
  | junk (hits : Nat)
deriving DecidableEq

/-- The own property names of `Object.prototype` other than the `__proto__`
accessor: a bracket read of any of these on a plain object returns the
inherited function, which is not null. -/
def protoProps : List String :=
  ["constructor", "hasOwnProperty", "isPrototypeOf", "propertyIsEnumerable",
   "toLocaleString", "toString", "valueOf",
   "__defineGetter__", "__defineSetter__", "__lookupGetter__", "__lookupSetter__"]

/-- The probe `globalScores[votedModelId] != null` of line 181 under
prototype-chain lookup: true for an own key and for every
`Object.prototype` member name, including the `__proto__` accessor (which
reads as `Object.prototype` itself, not null). -/
def scoreKeyedJs (m : List (String × ScoreVal)) (k : String) : Bool :=
  m.any (fun p => p.1 == k) || protoProps.contains k || k == "__proto__"

/-- The value produced by `+= 1` on an existing own value: a number is
incremented; a junk string gets one more "1" appended by string
concatenation. -/
def bumpVal (v : ScoreVal) : ScoreVal :=
  match v with
  | ScoreVal.num n => ScoreVal.num (n + 1)
  | ScoreVal.junk h => ScoreVal.junk (h + 1)

/-- The update `globalScores[votedModelId] += 1` of line 182 when the id is
an own key. -/
def bumpOwnJs (m : List (String × ScoreVal)) (k : String) : List (String × ScoreVal) :=
  m.map (fun p => if p.1 == k then (p.1, bumpVal p.2) else p)

/-- The update `globalScores[votedModelId] += 1` of line 182, reached only
after the probe passed: an own key is bumped in place; an inherited
`Object.prototype` member name creates a NEW own key at the end of
insertion order, holding the member's string form with "1" appended; for
`__proto__` the inherited setter silently discards the assigned non-object
string, changing nothing. -/
def bumpScoreJs (m : List (String × ScoreVal)) (k : String) : List (String × ScoreVal) :=
  if m.any (fun p => p.1 == k) then bumpOwnJs m k
  else if protoProps.contains k then m ++ [(k, ScoreVal.junk 1)]
  else m

/-- Lines 181-183 under full JS object semantics (the truthiness test
`votedModelId &&` still rejects null and the empty string). -/
def applyVoteJs (m : List (String × ScoreVal)) (voted : Option String) :
    List (String × ScoreVal) :=
  match voted with
  | some v => if v ≠ "" ∧ scoreKeyedJs m v then bumpScoreJs m v else m
  | none => m

/-- Lines 78-81 under full JS semantics: `globalScores[a.model] = 0`
creates an own key holding 0 (re-assigning an existing key leaves the
entry in place, every value stored here being 0) — except a model
literally named `__proto__`, whose inherited setter discards the
non-object 0 and stores nothing. -/
def initScoresJs (answers : List ModelAnswer) : List (String × ScoreVal) :=
  answers.foldl
    (fun m a =>
      if a.model == "__proto__" then m
      else if m.any (fun p => p.1 == a.model) then m
      else m ++ [(a.model, ScoreVal.num 0)]) []

/-- The numeric reading of one stored value: a junk string coerces to NaN
and never contributes to a numeric total. -/
def numVal (v : ScoreVal) : Nat :=
  match v with
  | ScoreVal.num n => n
  | ScoreVal.junk _h => 0

/-- Whether a stored value is a number. -/
def isNumVal (v : ScoreVal) : Bool :=
  match v with
  | ScoreVal.num _n => true
  | ScoreVal.junk _h => false

/-- Lines 200-207 over the full value domain: a junk string compares as NaN
against the running maximum, and NaN `>` anything is false, so the entry is
skipped. -/
def winnerStepJs (acc : Option String × Int) (p : String × ScoreVal) :
    Option String × Int :=
  match p.2 with
  | ScoreVal.num n => if (n : Int) > acc.2 then (some p.1, (n : Int)) else acc
  | ScoreVal.junk _h => acc

/-- The winner id selected by the lines 200-207 loop over the full value
domain. -/
def pickWinnerJs (scores : List (String × ScoreVal)) : Option String :=
  (scores.foldl winnerStepJs (none, -1)).1

/-- The evaluation result of lines 34-43 with scores over the full value
domain. -/
structure CrossEvaluationJs where
  scores : List (String × ScoreVal)
  winnerModelId : Option String
  winnerIndex : Option Nat
  judges : List JudgeVote
deriving DecidableEq

/-- The judge fan-out of lines 89-198 over the full value domain. -/
def runJudgesJs (scores0 : List (String × ScoreVal)) (answers : List ModelAnswer)
    (outcomes : Nat → JudgeOutcome) : List (String × ScoreVal) × List JudgeVote :=
  answers.enum.foldl
    (fun acc ia =>
      (applyVoteJs acc.1 (judgeVotedId (outcomes ia.1)),
       acc.2 ++ [mkVote ia.2 (outcomes ia.1)]))
    (scores0, [])

/-- Shallow embedding of `runCrossEvaluation` (lines 45-220) with the score
object under full JS prototype-chain semantics. -/
def runCrossEvaluationJs (choices : List Choice) (userQuestion : Option String)
    (outcomes : Nat → JudgeOutcome) : Option CrossEvaluationJs :=
  if userQuestion = none ∨ userQuestion = some "" ∨ choices.length < 2 then none
  else
    let answers := collectAnswers choices
    if answers.length < 2 then none
    else
      let scores0 := initScoresJs answers
      let r := runJudgesJs scores0 answers outcomes
      let winner := pickWinnerJs r.1
      some { scores := r.1, winnerModelId := winner,
             winnerIndex := winnerIndexOf answers winner, judges := r.2 }

/-- Sum of the numeric score values (junk string entries contribute nothing
to any numeric total). -/
def sumScoresJs (m : List (String × ScoreVal)) : Nat :=
  (m.map (fun p => numVal p.2)).sum

/-- The key list of a full-domain score map, in entry order. -/
def scoreKeysJs (m : List (String × ScoreVal)) : List String :=
  m.map (fun p => p.1)

/-- The keys of the entries holding a numeric value. -/
def numScoreKeys (m : List (String × ScoreVal)) : List String :=
  (m.filter (fun p => isNumVal p.2)).map (fun p => p.1)

/-! ### The answers normalization over raw message contents.  `JsContent`
covers the content values the route handles; a `message` whose `content`
is absent (or any value `JSON.stringify` maps to undefined) is also
reachable from an upstream reply, and line 64 then leaves the normalized
content undefined, so the filter of line 72 throws a TypeError when it
evaluates `a.content.trim()`. -/

/-- A raw upstream content value: a string, any other JSON value carried by
its serialization, or a value `JSON.stringify` turns into undefined (an
absent `content` property being the plain case). -/
inductive RawContent where
  | str (s : String)
  | other (serialized : String)
  | absent
deriving DecidableEq

/-- The `message` member of a raw upstream choice. -/
structure RawMessage where
  content : RawContent
deriving DecidableEq

/-- One raw entry of the `choices` array handed to `runCrossEvaluation`. -/
structure RawChoice where
  model : Option String
  message : Option RawMessage
deriving DecidableEq

/-- The mapped entry of lines 55-71 for one indexed choice: none when line
58 drops it, otherwise the index, the model, and the computed content —
which is none exactly when line 64 left it undefined. -/
def rawMapped (ic : Nat × RawChoice) : Option (Nat × String × Option String) :=
  match ic.2.model, ic.2.message with
  | some m, some msg =>
    if m = "" then none
    else some (ic.1, m,
      match msg.content with
      | RawContent.str s => some s
      | RawContent.other s => some s
      | RawContent.absent => none)
  | _, _ => none

/-- Lines 54-72 over raw choices: the filter of line 72 evaluates
`a.content.trim()` on every entry the map kept, so a single undefined
content throws a TypeError for the whole call; otherwise the normalized
answers survive exactly as in `collectAnswers`. -/
def collectAnswersRaw (choices : List RawChoice) : Except Unit (List ModelAnswer) :=
  let mapped := choices.enum.filterMap rawMapped
  if mapped.any (fun x => x.2.2.isNone) then Except.error ()
  else
    Except.ok ((mapped.filterMap (fun x =>
      x.2.2.map (fun s =>
        ({ index := x.1, model := x.2.1, content := s } : ModelAnswer)))).filter
        (fun a => (jsTrim a.content.toList).length > 0))

/-- Lines 45-220 over raw choices: the guards of line 50 still return null
before the map runs; past them an undefined content throws out of the
filter (line 72), the error propagating to the caller (the handler's catch
turns it into a 500); otherwise the round runs as in
`runCrossEvaluation`. -/
def runCrossEvaluationRaw (choices : List RawChoice) (userQuestion : Option String)
    (outcomes : Nat → JudgeOutcome) : Except Unit (Option CrossEvaluation) :=
  if userQuestion = none ∨ userQuestion = some "" ∨ choices.length < 2 then
    Except.ok none
  else
    match collectAnswersRaw choices with
    | Except.error e => Except.error e
    | Except.ok answers =>
      if answers.length < 2 then Except.ok none
      else
        let scores0 := initScores answers
        let r := runJudges scores0 answers outcomes
        let winner := pickWinner r.1
        Except.ok (some { scores := r.1, winnerModelId := winner,
                          winnerIndex := winnerIndexOf answers winner, judges := r.2 })

/-- The judge requests dispatched by the raw round: none when a guard fails
or the normalization throws. -/
def crossEvalCallsRaw (choices : List RawChoice) (userQuestion : Option String) :
    List String :=
  if userQuestion = none ∨ userQuestion = some "" ∨ choices.length < 2 then []
  else
    match collectAnswersRaw choices with
    | Except.error _e => []
    | Except.ok answers =>
      if answers.length < 2 then [] else answers.map (fun a => a.model)

/-- The candidates with a defined, non-whitespace content. -/
def definedAnswers (choices : List RawChoice) : List ModelAnswer :=
  (choices.enum.filterMap (fun ic => (rawMapped ic).bind (fun x =>
    x.2.2.map (fun s =>
      ({ index := x.1, model := x.2.1, content := s } : ModelAnswer))))).filter
    (fun a => (jsTrim a.content.toList).length > 0)

/-! ### The POST handler over the full body domain -/

/-- The result of `await req.json()` as line 245 dispatches on it: the
parse threw (caught at lines 236-241), parsed to the JSON value null — on
which line 245 evaluates `body.messages` and throws a TypeError outside
any try — or parsed to a value whose two field reads behave as
`ReqBody`. -/
inductive BodyCase where
  | threw
  | jsNull
  | obj (b : ReqBody)
deriving DecidableEq

/-- The observable outcome of one handler call: a response together with
the list of dispatched fetches, or an uncaught exception that the
framework turns into a generic 500 (reachable from line 245, which sits
outside the try block that starts at line 264). -/
inductive PostResult where
  | resp (r : PostResponse) (calls : List String)
  | uncaught
deriving DecidableEq

/-- The `POST` handler (lines 222-445) over the full body domain.  The
missing-credential check of lines 224-231 precedes body parsing; a body
that parsed to null crashes on `body.messages` (line 245) before every
guarded branch; every other body behaves as in `POST`. -/
def POSTraw (apiKey : Option String) (body : BodyCase)
    (backendResponses : String → BackendOutcome) (judgeOutcomes : Nat → JudgeOutcome) :
    PostResult :=
  if apiKey = none ∨ apiKey = some "" then
    PostResult.resp { status := 500,
                      error := some "Missing OPENROUTER_API_KEY in environment",
                      details := none, choices := [], evaluation := none,
                      modelStatuses := none } []
  else
    match body with
    | BodyCase.threw =>
      PostResult.resp { status := 400, error := some "Invalid JSON body",
                        details := none, choices := [], evaluation := none,
                        modelStatuses := none } []
    | BodyCase.jsNull => PostResult.uncaught
    | BodyCase.obj b =>
      PostResult.resp (POST apiKey (some b) backendResponses judgeOutcomes).1
        (POST apiKey (some b) backendResponses judgeOutcomes).2

/-- The catch-all 500 response of lines 438-444. -/
def resp500Failed : PostResponse :=
  { status := 500, error := some "Failed to call OpenRouter API",
    details := none, choices := [], evaluation := none, modelStatuses := none }

/-- The 502 response carrying the given per-backend statuses (lines
388-398). -/
def resp502Of (statuses : List (String × ModelStatus)) : PostResponse :=
  { status := 502, error := some "OpenRouter API error",
    details := some statuses, choices := [], evaluation := none, modelStatuses := none }

/-- An outcome oracle where judge 0 votes for the inherited member name
toString and judge 1 fails. -/
def protoVoteOutcomes : Nat → JudgeOutcome := fun i =>
  if i = 0 then JudgeOutcome.content "\x7b\"winner_model_id\":\"toString\"\x7d"
  else JudgeOutcome.httpFail

/-- The full-domain evaluation produced from `[choiceA, choiceB]` under
`protoVoteOutcomes`: the toString vote passes the probe and appends a
string-valued own key. -/
def evProtoVote : CrossEvaluationJs :=
  { scores := [("model-a", ScoreVal.num 0), ("model-b", ScoreVal.num 0),
               ("toString", ScoreVal.junk 1)],
    winnerModelId := some "model-a",
    winnerIndex := some 0,
    judges := [{ judgeModelId := "model-a", votedModelId := some "toString",
                 reasoning := none },
               { judgeModelId := "model-b", votedModelId := none, reasoning := none }] }

/-- An outcome oracle where judge 0 votes for the inherited member name
hasOwnProperty and judge 1 votes for model-a. -/
def protoMixOutcomes : Nat → JudgeOutcome := fun i =>
  if i = 0 then JudgeOutcome.content "\x7b\"winner_model_id\":\"hasOwnProperty\"\x7d"
  else JudgeOutcome.content "\x7b\"winner_model_id\":\"model-a\"\x7d"

/-- The full-domain evaluation produced from `[choiceA, choiceB]` under
`protoMixOutcomes`. -/
def evProtoMix : CrossEvaluationJs :=
  { scores := [("model-a", ScoreVal.num 1), ("model-b", ScoreVal.num 0),
               ("hasOwnProperty", ScoreVal.junk 1)],
    winnerModelId := some "model-a",
    winnerIndex := some 0,
    judges := [{ judgeModelId := "model-a", votedModelId := some "hasOwnProperty",
                 reasoning := none },
               { judgeModelId := "model-b", votedModelId := some "model-a",
                 reasoning := none }] }

/-- A raw candidate choice for model-a. -/
def rawChoiceA : RawChoice :=
  { model := some "model-a", message := some { content := RawContent.str "Answer A" } }

/-- A raw choice whose message carries no content value: line 64 leaves its
normalized content undefined. -/
def rawUndefChoice : RawChoice :=
  { model := some "model-b", message := some { content := RawContent.absent } }

/-- A raw choice without a usable model, dropped at line 58 before its
content is read. -/
def rawNoModel : RawChoice :=
  { model := none, message := some { content := RawContent.str "hi" } }


end MinorProject

namespace MinorProject

/-! ### General list helpers -/

theorem suffix_step {c : Char} {l₁ l₂ : List Char} (h : l₁ <:+ l₂) : l₁ <:+ c :: l₂ :=
  h.trans (List.suffix_cons c l₂)

theorem dropWhile_isSuffix (p : Char → Bool) (l : List Char) : l.dropWhile p <:+ l :=
  ⟨l.takeWhile p, List.takeWhile_append_dropWhile p l⟩

theorem skipWs_suffix (l : List Char) : skipWs l <:+ l := dropWhile_isSuffix _ l

theorem lastQ_suffix {l₁ l₂ : List Char} (h : l₁ <:+ l₂) (hne : l₁ ≠ []) :
    l₂.getLast? = l₁.getLast? := by
  obtain ⟨t, rfl⟩ := h
  exact List.getLast?_append_of_ne_nil t hne

theorem headQ_dropWhile (p : Char → Bool) (l : List Char) {c : Char}
    (h : (l.dropWhile p).head? = some c) : p c = false := by
  induction l with
  | nil => simp at h
  | cons a t ih =>
      rw [List.dropWhile_cons] at h
      by_cases hp : p a = true
      · rw [if_pos hp] at h
        exact ih h
      · rw [if_neg hp] at h
        simp only [List.head?_cons, Option.some.injEq] at h
        subst h
        exact Bool.eq_false_iff.mpr hp

theorem headQ_mem {l : List Char} {c : Char} (h : l.head? = some c) : c ∈ l := by
  cases l with
  | nil => simp at h
  | cons a t => simp only [List.head?_cons, Option.some.injEq] at h; subst h; exact List.mem_cons_self a t

theorem lastQ_mem {l : List Char} {c : Char} (h : l.getLast? = some c) : c ∈ l := by
  cases l with
  | nil => simp at h
  | cons a t => exact List.mem_of_mem_getLast? h

/-! ### jsTrim boundary facts -/

theorem jsTrim_head_not_ws {cs : List Char} {c : Char}
    (h : (jsTrim cs).head? = some c) : jsTrimWs c = false := by
  unfold jsTrim at h
  set m := (cs.dropWhile jsTrimWs).reverse with hm
  have hne : m.dropWhile jsTrimWs ≠ [] := by
    intro hnil
    rw [hnil] at h
    simp at h
  have hlast : (m.dropWhile jsTrimWs).getLast? = m.getLast? :=
    (lastQ_suffix (dropWhile_isSuffix jsTrimWs m) hne).symm
  rw [List.head?_reverse] at h
  rw [hlast] at h
  rw [hm, List.getLast?_reverse] at h
  exact headQ_dropWhile jsTrimWs _ h

theorem jsTrim_last_not_ws {cs : List Char} {c : Char}
    (h : (jsTrim cs).getLast? = some c) : jsTrimWs c = false := by
  unfold jsTrim at h
  rw [List.getLast?_reverse] at h
  exact headQ_dropWhile jsTrimWs _ h

theorem jsonWs_of_jsTrimWs {c : Char} (h : jsonWs c = true) : jsTrimWs c = true := by
  unfold jsonWs at h
  unfold jsTrimWs
  rcases Bool.or_eq_true_iff.mp h with h | h
  · rcases Bool.or_eq_true_iff.mp h with h | h
    · rcases Bool.or_eq_true_iff.mp h with h | h <;> simp [h]
    · simp [h]
  · simp [h]

/-! ### Winner-selection lemmas (lines 200-207) -/

theorem winnerFold_keep {l : List (String × Nat)} {acc : Option String × Int}
    (h : ∀ p ∈ l, (p.2 : Int) ≤ acc.2) : l.foldl winnerStep acc = acc := by
  induction l generalizing acc with
  | nil => rfl
  | cons p t ih =>
      have hp : ¬ ((p.2 : Int) > acc.2) := not_lt.mpr (h p (List.mem_cons_self p t))
      rw [List.foldl_cons]
      rw [show winnerStep acc p = acc by simp [winnerStep, hp]]
      exact ih (fun q hq => h q (List.mem_cons_of_mem p hq))

theorem winnerFold_lt {l : List (String × Nat)} {acc : Option String × Int} {v : Int}
    (hacc : acc.2 < v) (h : ∀ p ∈ l, (p.2 : Int) < v) :
    (l.foldl winnerStep acc).2 < v := by
  induction l generalizing acc with
  | nil => exact hacc
  | cons p t ih =>
      rw [List.foldl_cons]
      by_cases hp : (p.2 : Int) > acc.2
      · have : winnerStep acc p = (some p.1, (p.2 : Int)) := by simp [winnerStep, hp]
        rw [this]
        exact ih (h p (List.mem_cons_self p t)) (fun q hq => h q (List.mem_cons_of_mem p hq))
      · have : winnerStep acc p = acc := by simp [winnerStep, hp]
        rw [this]
        exact ih hacc (fun q hq => h q (List.mem_cons_of_mem p hq))

theorem winnerFold_mem (l : List (String × Nat)) (acc : Option String × Int) :
    (l.foldl winnerStep acc).1 = acc.1 ∨ ∃ p ∈ l, (l.foldl winnerStep acc).1 = some p.1 := by
  induction l generalizing acc with
  | nil => exact Or.inl rfl
  | cons p t ih =>
      rw [List.foldl_cons]
      rcases ih (winnerStep acc p) with h | ⟨q, hq, hh⟩
      · by_cases hp : (p.2 : Int) > acc.2
        · refine Or.inr ⟨p, List.mem_cons_self p t, ?_⟩
          rw [h]
          simp [winnerStep, hp]
        · refine Or.inl ?_
          rw [h]
          simp [winnerStep, hp]
      · exact Or.inr ⟨q, List.mem_cons_of_mem p hq, hh⟩

theorem pickWinner_first_max (l₁ : List (String × Nat)) (w : String) (v : Nat)
    (l₂ : List (String × Nat))
    (h₁ : ∀ p ∈ l₁, p.2 < v) (h₂ : ∀ p ∈ l₂, p.2 ≤ v) :
    pickWinner (l₁ ++ (w, v) :: l₂) = some w := by
  unfold pickWinner
  rw [List.foldl_append]
  have hlt : ((l₁.foldl winnerStep (none, -1)).2) < (v : Int) := by
    refine winnerFold_lt ?_ ?_
    · exact lt_of_lt_of_le (by norm_num) (Int.ofNat_nonneg v)
    · intro p hp
      exact_mod_cast h₁ p hp
  rw [List.foldl_cons]
  have hstep : winnerStep (l₁.foldl winnerStep (none, -1)) (w, v) = (some w, (v : Int)) := by
    simp [winnerStep, hlt]
  rw [hstep]
  rw [winnerFold_keep (by
    intro p hp
    show (p.2 : Int) ≤ (v : Int)
    exact_mod_cast h₂ p hp)]

theorem pickWinner_isKey {l : List (String × Nat)} (h : l ≠ []) :
    ∃ w, pickWinner l = some w ∧ w ∈ scoreKeys l := by
  cases l with
  | nil => exact absurd rfl h
  | cons p t =>
      unfold pickWinner
      rw [List.foldl_cons]
      have hstep : winnerStep (none, -1) p = (some p.1, (p.2 : Int)) := by
        have : (-1 : Int) < (p.2 : Int) := lt_of_lt_of_le (by norm_num) (Int.ofNat_nonneg p.2)
        simp [winnerStep, this]
      rw [hstep]
      rcases winnerFold_mem t (some p.1, (p.2 : Int)) with hh | ⟨q, hq, hh⟩
      · refine ⟨p.1, hh, ?_⟩
        unfold scoreKeys
        exact List.mem_map_of_mem _ (List.mem_cons_self p t)
      · refine ⟨q.1, hh, ?_⟩
        unfold scoreKeys
        exact List.mem_map_of_mem _ (List.mem_cons_of_mem p hq)

theorem pickWinner_all_zero {l : List (String × Nat)} (h : ∀ p ∈ l, p.2 = 0) (hne : l ≠ []) :
    pickWinner l = (l.head?).map (fun p => p.1) := by
  cases l with
  | nil => exact absurd rfl hne
  | cons p t =>
      unfold pickWinner
      rw [List.foldl_cons]
      have hstep : winnerStep (none, -1) p = (some p.1, (p.2 : Int)) := by
        have : (-1 : Int) < (p.2 : Int) := lt_of_lt_of_le (by norm_num) (Int.ofNat_nonneg p.2)
        simp [winnerStep, this]
      rw [hstep]
      have hz : p.2 = 0 := h p (List.mem_cons_self p t)
      rw [winnerFold_keep (by
        intro q hq
        have := h q (List.mem_cons_of_mem p hq)
        simp [this, hz])]
      simp

end MinorProject

namespace MinorProject

/-! ### Score-map lemmas (lines 78-81 and 181-183) -/

theorem scoreKeyed_iff {m : List (String × Nat)} {k : String} :
    scoreKeyed m k = true ↔ k ∈ scoreKeys m := by
  unfold scoreKeyed scoreKeys
  rw [List.any_eq_true]
  constructor
  · rintro ⟨p, hp, hbe⟩
    exact List.mem_map.mpr ⟨p, hp, beq_iff_eq.mp hbe⟩
  · intro h
    rcases List.mem_map.mp h with ⟨p, hp, hpk⟩
    exact ⟨p, hp, beq_iff_eq.mpr hpk⟩

theorem countedVote_some_iff {keys : List String} {s : String} :
    countedVote keys (some s) = true ↔ s ∈ keys := by
  simp [countedVote, List.elem_iff]

theorem applyVote_none (m : List (String × Nat)) : applyVote m none = m := rfl

theorem applyVote_some (m : List (String × Nat)) (s : String) :
    applyVote m (some s) = if s ≠ "" ∧ scoreKeyed m s then bumpScore m s else m := rfl

theorem scoreKeys_bump (m : List (String × Nat)) (k : String) :
    scoreKeys (bumpScore m k) = scoreKeys m := by
  unfold scoreKeys bumpScore
  rw [List.map_map]
  refine List.map_congr_left ?_
  intro p _
  by_cases h : p.1 = k
  · simp [h]
  · simp [h]

theorem scoreKeys_applyVote (m : List (String × Nat)) (v : Option String) :
    scoreKeys (applyVote m v) = scoreKeys m := by
  cases v with
  | none => rw [applyVote_none]
  | some s =>
      rw [applyVote_some]
      by_cases h : s ≠ "" ∧ (scoreKeyed m s : Prop)
      · rw [if_pos h]
        exact scoreKeys_bump m s
      · rw [if_neg h]

theorem bump_of_not_keyed {m : List (String × Nat)} {k : String}
    (h : scoreKeyed m k = false) : bumpScore m k = m := by
  induction m with
  | nil => rfl
  | cons p t ih =>
      unfold scoreKeyed at h
      rw [List.any_cons] at h
      rcases Bool.or_eq_false_iff.mp h with ⟨h1, h2⟩
      unfold bumpScore
      rw [List.map_cons, if_neg (by simp only [h1]; exact Bool.false_ne_true)]
      have := ih (by unfold scoreKeyed; exact h2)
      unfold bumpScore at this
      rw [this]

theorem sum_bump {m : List (String × Nat)} {k : String}
    (hnd : (scoreKeys m).Nodup) (hk : scoreKeyed m k = true) :
    sumScores (bumpScore m k) = sumScores m + 1 := by
  induction m with
  | nil => simp [scoreKeyed] at hk
  | cons p t ih =>
      unfold scoreKeyed at hk
      rw [List.any_cons] at hk
      unfold scoreKeys at hnd
      rw [List.map_cons, List.nodup_cons] at hnd
      by_cases hpk : p.1 == k
      · have hk' : k ∉ scoreKeys t := by
          have : p.1 = k := beq_iff_eq.mp hpk
          rw [← this]
          exact hnd.1
        have ht : scoreKeyed t k = false := by
          by_contra hc
          exact hk' (scoreKeyed_iff.mp (Bool.of_not_eq_false hc))
        unfold bumpScore
        rw [List.map_cons, if_pos hpk]
        have := bump_of_not_keyed ht
        unfold bumpScore at this
        rw [this]
        simp [sumScores, Nat.add_comm, Nat.add_assoc, Nat.add_left_comm]
      · have ht : scoreKeyed t k = true := by
          rcases Bool.or_eq_true_iff.mp hk with h | h
          · exact absurd h hpk
          · exact h
        unfold bumpScore
        rw [List.map_cons, if_neg hpk]
        have := ih hnd.2 ht
        unfold bumpScore at this
        simp only [sumScores, List.map_cons, List.sum_cons] at this ⊢
        rw [this]
        omega

theorem sum_applyVote {m : List (String × Nat)} {v : Option String}
    (hnd : (scoreKeys m).Nodup) (hne : "" ∉ scoreKeys m) :
    sumScores (applyVote m v) =
      sumScores m + (if countedVote (scoreKeys m) v then 1 else 0) := by
  cases v with
  | none => simp [applyVote_none, countedVote]
  | some s =>
      by_cases hmem : s ∈ scoreKeys m
      · have hs : s ≠ "" := fun h => hne (h ▸ hmem)
        have hk : scoreKeyed m s = true := scoreKeyed_iff.mpr hmem
        rw [applyVote_some, if_pos ⟨hs, hk⟩, sum_bump hnd hk,
            if_pos (countedVote_some_iff.mpr hmem)]
      · have hk : ¬ (s ≠ "" ∧ (scoreKeyed m s : Prop)) := by
          rintro ⟨-, h⟩
          exact hmem (scoreKeyed_iff.mp h)
        rw [applyVote_some, if_neg hk,
            if_neg (fun h => hmem (countedVote_some_iff.mp h))]
        omega

theorem foldl_applyVote_keys (vs : List (Option String)) (m : List (String × Nat)) :
    scoreKeys (vs.foldl applyVote m) = scoreKeys m := by
  induction vs generalizing m with
  | nil => rfl
  | cons v t ih =>
      rw [List.foldl_cons, ih, scoreKeys_applyVote]

theorem foldl_applyVote_sum (vs : List (Option String)) (m : List (String × Nat))
    (hnd : (scoreKeys m).Nodup) (hne : "" ∉ scoreKeys m) :
    sumScores (vs.foldl applyVote m) =
      sumScores m + vs.countP (fun v => countedVote (scoreKeys m) v) := by
  induction vs generalizing m with
  | nil => simp
  | cons v t ih =>
      rw [List.foldl_cons, List.countP_cons]
      have hkeys : scoreKeys (applyVote m v) = scoreKeys m := scoreKeys_applyVote m v
      have := ih (applyVote m v) (hkeys ▸ hnd) (hkeys ▸ hne)
      rw [this, hkeys, sum_applyVote hnd hne]
      omega

/-! ### The judge fan-out as a pure fold (lines 89-198) -/

theorem runJudges_fold (outcomes : Nat → JudgeOutcome) (l : List (Nat × ModelAnswer))
    (s : List (String × Nat)) (vs : List JudgeVote) :
    l.foldl
      (fun acc ia =>
        (applyVote acc.1 (judgeVotedId (outcomes ia.1)), acc.2 ++ [mkVote ia.2 (outcomes ia.1)]))
      (s, vs)
      = ((l.map (fun ia => judgeVotedId (outcomes ia.1))).foldl applyVote s,
         vs ++ l.map (fun ia => mkVote ia.2 (outcomes ia.1))) := by
  induction l generalizing s vs with
  | nil => simp
  | cons ia t ih =>
      rw [List.foldl_cons, List.map_cons, List.map_cons, List.foldl_cons, ih]
      simp

theorem runJudges_eq (scores0 : List (String × Nat)) (answers : List ModelAnswer)
    (outcomes : Nat → JudgeOutcome) :
    runJudges scores0 answers outcomes =
      ((answers.enum.map (fun ia => judgeVotedId (outcomes ia.1))).foldl applyVote scores0,
       answers.enum.map (fun ia => mkVote ia.2 (outcomes ia.1))) := by
  unfold runJudges
  rw [runJudges_fold]
  simp

/-! ### initScores structure (lines 78-81) -/

theorem initScores_step_keys (m : List (String × Nat)) (a : ModelAnswer) {x : String}
    (h : x ∈ scoreKeys (if m.any (fun p => p.1 == a.model) then m else m ++ [(a.model, 0)])) :
    x ∈ scoreKeys m ∨ x = a.model := by
  by_cases hc : m.any (fun p => p.1 == a.model)
  · rw [if_pos hc] at h
    exact Or.inl h
  · rw [if_neg hc] at h
    unfold scoreKeys at h
    rw [List.map_append] at h
    rcases List.mem_append.mp h with h | h
    · exact Or.inl h
    · simp at h
      exact Or.inr h

theorem initScores_fold_keys {l : List ModelAnswer} {m : List (String × Nat)} {x : String}
    (h : x ∈ scoreKeys (l.foldl
      (fun m a => if m.any (fun p => p.1 == a.model) then m else m ++ [(a.model, 0)]) m)) :
    x ∈ scoreKeys m ∨ ∃ a ∈ l, x = a.model := by
  induction l generalizing m with
  | nil => exact Or.inl h
  | cons a t ih =>
      rw [List.foldl_cons] at h
      rcases ih h with h' | ⟨b, hb, hx⟩
      · rcases initScores_step_keys m a h' with h'' | h''
        · exact Or.inl h''
        · exact Or.inr ⟨a, List.mem_cons_self a t, h''⟩
      · exact Or.inr ⟨b, List.mem_cons_of_mem a hb, hx⟩

theorem initScores_fold_nodup {l : List ModelAnswer} {m : List (String × Nat)}
    (h : (scoreKeys m).Nodup) :
    (scoreKeys (l.foldl
      (fun m a => if m.any (fun p => p.1 == a.model) then m else m ++ [(a.model, 0)]) m)).Nodup := by
  induction l generalizing m with
  | nil => exact h
  | cons a t ih =>
      rw [List.foldl_cons]
      refine ih ?_
      by_cases hc : m.any (fun p => p.1 == a.model)
      · rw [if_pos hc]
        exact h
      · rw [if_neg hc]
        unfold scoreKeys
        rw [List.map_append]
        refine List.Nodup.append h (by simp) ?_
        intro x hx hx'
        simp at hx'
        subst hx'
        exact (Bool.eq_false_iff.mp (Bool.of_not_eq_true hc))
          ((scoreKeyed_iff (m := m) (k := a.model)).mpr hx)

theorem initScores_fold_zero {l : List ModelAnswer} {m : List (String × Nat)}
    (h : ∀ p ∈ m, p.2 = 0) :
    ∀ p ∈ (l.foldl
      (fun m a => if m.any (fun p => p.1 == a.model) then m else m ++ [(a.model, 0)]) m),
      p.2 = 0 := by
  induction l generalizing m with
  | nil => exact h
  | cons a t ih =>
      rw [List.foldl_cons]
      refine ih ?_
      by_cases hc : m.any (fun p => p.1 == a.model)
      · rw [if_pos hc]
        exact h
      · rw [if_neg hc]
        intro p hp
        rcases List.mem_append.mp hp with hp | hp
        · exact h p hp
        · simp at hp
          rw [hp]

theorem initScores_fold_head {l : List ModelAnswer} {m : List (String × Nat)}
    (h : m ≠ []) :
    (l.foldl
      (fun m a => if m.any (fun p => p.1 == a.model) then m else m ++ [(a.model, 0)]) m).head?
      = m.head? := by
  induction l generalizing m with
  | nil => rfl
  | cons a t ih =>
      rw [List.foldl_cons]
      by_cases hc : m.any (fun p => p.1 == a.model)
      · rw [if_pos hc]
        exact ih h
      · rw [if_neg hc]
        rw [ih (by cases m with | nil => exact absurd rfl h | cons q r => simp)]
        cases m with
        | nil => exact absurd rfl h
        | cons q r => simp

theorem initScores_nodup (answers : List ModelAnswer) :
    (scoreKeys (initScores answers)).Nodup :=
  initScores_fold_nodup (by simp [scoreKeys])

theorem initScores_keys_sub {answers : List ModelAnswer} {x : String}
    (h : x ∈ scoreKeys (initScores answers)) : ∃ a ∈ answers, x = a.model := by
  rcases initScores_fold_keys h with h' | h'
  · simp [scoreKeys] at h'
  · exact h'

theorem initScores_zero (answers : List ModelAnswer) :
    ∀ p ∈ initScores answers, p.2 = 0 :=
  initScores_fold_zero (by simp)

theorem sumScores_initScores (answers : List ModelAnswer) :
    sumScores (initScores answers) = 0 := by
  have h := initScores_zero answers
  unfold sumScores
  rw [List.sum_eq_zero]
  intro x hx
  rcases List.mem_map.mp hx with ⟨p, hp, rfl⟩
  exact h p hp

theorem initScores_head (a : ModelAnswer) (l : List ModelAnswer) :
    (initScores (a :: l)).head? = some (a.model, 0) := by
  unfold initScores
  rw [List.foldl_cons]
  rw [show (if ([] : List (String × Nat)).any (fun p => p.1 == a.model) then ([] : List (String × Nat))
        else [] ++ [(a.model, 0)]) = [(a.model, 0)] by simp]
  rw [initScores_fold_head (by simp)]
  rfl

theorem collectAnswers_model_ne (choices : List Choice) :
    ∀ a ∈ collectAnswers choices, a.model ≠ "" := by
  intro a ha
  unfold collectAnswers at ha
  have ha' := List.mem_of_mem_filter ha
  rcases List.mem_filterMap.mp ha' with ⟨ic, -, hic⟩
  rcases h1 : ic.2.model with - | m
  · rcases h2 : ic.2.message with - | msg <;> rw [h1, h2] at hic <;> simp at hic
  · rcases h2 : ic.2.message with - | msg
    · rw [h1, h2] at hic
      simp at hic
    · rw [h1, h2] at hic
      dsimp only at hic
      by_cases hm : m = ""
      · rw [if_pos hm] at hic
        exact absurd hic (by simp)
      · rw [if_neg hm] at hic
        have hma := Option.some.inj hic
        rw [← hma]
        exact hm

end MinorProject

namespace MinorProject

/-! ### Unpacking a completed evaluation round -/

theorem crossEval_components {choices : List Choice} {q : Option String}
    {outcomes : Nat → JudgeOutcome} {ev : CrossEvaluation}
    (h : runCrossEvaluation choices q outcomes = some ev) :
    ev.scores = ((collectAnswers choices).enum.map
        (fun ia => judgeVotedId (outcomes ia.1))).foldl applyVote
        (initScores (collectAnswers choices)) ∧
    ev.judges = (collectAnswers choices).enum.map (fun ia => mkVote ia.2 (outcomes ia.1)) ∧
    ev.winnerModelId = pickWinner ev.scores ∧
    ev.winnerIndex = winnerIndexOf (collectAnswers choices) ev.winnerModelId ∧
    2 ≤ (collectAnswers choices).length := by
  simp only [runCrossEvaluation] at h
  by_cases h1 : q = none ∨ q = some "" ∨ choices.length < 2
  · rw [if_pos h1] at h
    cases h
  · rw [if_neg h1] at h
    by_cases h2 : (collectAnswers choices).length < 2
    · rw [if_pos h2] at h
      cases h
    · rw [if_neg h2] at h
      have hev := (Option.some.inj h).symm
      subst hev
      rw [runJudges_eq]
      exact ⟨rfl, rfl, rfl, rfl, Nat.le_of_not_lt h2⟩

theorem crossEval_keys {choices : List Choice} {q : Option String}
    {outcomes : Nat → JudgeOutcome} {ev : CrossEvaluation}
    (h : runCrossEvaluation choices q outcomes = some ev) :
    scoreKeys ev.scores = scoreKeys (initScores (collectAnswers choices)) := by
  rw [(crossEval_components h).1]
  exact foldl_applyVote_keys _ _

theorem initScores_no_empty_key (choices : List Choice) :
    "" ∉ scoreKeys (initScores (collectAnswers choices)) := by
  intro hmem
  rcases initScores_keys_sub hmem with ⟨a, ha, hx⟩
  exact collectAnswers_model_ne choices a ha hx.symm

theorem crossEval_sum_eq {choices : List Choice} {q : Option String}
    {outcomes : Nat → JudgeOutcome} {ev : CrossEvaluation}
    (h : runCrossEvaluation choices q outcomes = some ev) :
    sumScores ev.scores =
      (ev.judges.filter
        (fun jv => countedVote (scoreKeys ev.scores) jv.votedModelId)).length := by
  obtain ⟨hs, hj, -, -, -⟩ := crossEval_components h
  rw [hs, hj, foldl_applyVote_sum _ _ (initScores_nodup _) (initScores_no_empty_key choices),
      sumScores_initScores, Nat.zero_add, ← List.countP_eq_length_filter, List.countP_map,
      foldl_applyVote_keys]
  rw [List.countP_map]
  rfl

theorem crossEval_judges_get {choices : List Choice} {q : Option String}
    {outcomes : Nat → JudgeOutcome} {ev : CrossEvaluation}
    (h : runCrossEvaluation choices q outcomes = some ev) :
    ev.judges.length = (collectAnswers choices).length ∧
    ∀ i : Nat, ev.judges.get? i =
      ((collectAnswers choices).get? i).map (fun a => mkVote a (outcomes i)) := by
  obtain ⟨-, hj, -, -, -⟩ := crossEval_components h
  constructor
  · rw [hj, List.length_map, List.enum_length]
  · intro i
    rw [hj, List.get?_eq_getElem?, List.getElem?_map, List.getElem?_enum,
        List.get?_eq_getElem?]
    cases hx : (collectAnswers choices)[i]? with
    | none => rfl
    | some a => rfl

/-! ### Score-object lemmas under full JS prototype-chain semantics -/

theorem ownKeyJs_iff {m : List (String × ScoreVal)} {k : String} :
    (m.any (fun p => p.1 == k)) = true ↔ k ∈ scoreKeysJs m := by
  unfold scoreKeysJs
  rw [List.any_eq_true]
  constructor
  · rintro ⟨p, hp, hbe⟩
    exact List.mem_map.mpr ⟨p, hp, beq_iff_eq.mp hbe⟩
  · intro h
    rcases List.mem_map.mp h with ⟨p, hp, hpk⟩
    exact ⟨p, hp, beq_iff_eq.mpr hpk⟩

theorem applyVoteJs_none (m : List (String × ScoreVal)) : applyVoteJs m none = m := rfl

theorem applyVoteJs_some (m : List (String × ScoreVal)) (s : String) :
    applyVoteJs m (some s) =
      if s ≠ "" ∧ scoreKeyedJs m s then bumpScoreJs m s else m := rfl

theorem scoreKeysJs_bumpOwnJs (m : List (String × ScoreVal)) (k : String) :
    scoreKeysJs (bumpOwnJs m k) = scoreKeysJs m := by
  unfold scoreKeysJs bumpOwnJs
  rw [List.map_map]
  refine List.map_congr_left ?_
  intro p _
  by_cases h : p.1 = k
  · simp [h]
  · simp [h]

theorem numScoreKeys_sub {m : List (String × ScoreVal)} {x : String}
    (h : x ∈ numScoreKeys m) : x ∈ scoreKeysJs m := by
  unfold numScoreKeys at h
  unfold scoreKeysJs
  rcases List.mem_map.mp h with ⟨p, hp, hx⟩
  exact List.mem_map.mpr ⟨p, List.mem_of_mem_filter hp, hx⟩

theorem bumpOwnJs_cons (k1 : String) (v1 : ScoreVal) (t : List (String × ScoreVal))
    (k : String) :
    bumpOwnJs ((k1, v1) :: t) k =
      (if k1 == k then (k1, bumpVal v1) else (k1, v1)) :: bumpOwnJs t k := rfl

theorem sumScoresJs_cons (k1 : String) (v1 : ScoreVal) (t : List (String × ScoreVal)) :
    sumScoresJs ((k1, v1) :: t) = numVal v1 + sumScoresJs t := by
  unfold sumScoresJs
  rw [List.map_cons, List.sum_cons]

theorem numScoreKeys_cons (k1 : String) (v1 : ScoreVal) (t : List (String × ScoreVal)) :
    numScoreKeys ((k1, v1) :: t) =
      if isNumVal v1 then k1 :: numScoreKeys t else numScoreKeys t := by
  cases v1 with
  | num n => rfl
  | junk hh => rfl

theorem numScoreKeys_bumpOwnJs (m : List (String × ScoreVal)) (k : String) :
    numScoreKeys (bumpOwnJs m k) = numScoreKeys m := by
  induction m with
  | nil => rfl
  | cons p t ih =>
      obtain ⟨k1, v1⟩ := p
      rw [bumpOwnJs_cons]
      by_cases h : (k1 == k) = true
      · rw [if_pos h, numScoreKeys_cons, numScoreKeys_cons, ih]
        cases v1 with
        | num n => rfl
        | junk hh => rfl
      · rw [if_neg h, numScoreKeys_cons, numScoreKeys_cons, ih]

theorem sumJs_bumpOwn_countP (m : List (String × ScoreVal)) (k : String) :
    sumScoresJs (bumpOwnJs m k) =
      sumScoresJs m + m.countP (fun p => p.1 == k && isNumVal p.2) := by
  induction m with
  | nil => rfl
  | cons p t ih =>
      obtain ⟨k1, v1⟩ := p
      rw [bumpOwnJs_cons, List.countP_cons]
      by_cases h : (k1 == k) = true
      · rw [if_pos h, sumScoresJs_cons, sumScoresJs_cons, ih]
        have hcond : ((k1, v1).1 == k && isNumVal (k1, v1).2) = isNumVal v1 := by
          show (k1 == k && isNumVal v1) = isNumVal v1
          rw [h, Bool.true_and]
        rw [hcond]
        cases v1 with
        | num n => simp [bumpVal, numVal, isNumVal]; omega
        | junk hh => simp [bumpVal, numVal, isNumVal]
      · rw [if_neg h, sumScoresJs_cons, sumScoresJs_cons, ih]
        have hcond : ((k1, v1).1 == k && isNumVal (k1, v1).2) = false := by
          show (k1 == k && isNumVal v1) = false
          rw [Bool.eq_false_iff.mpr h, Bool.false_and]
        rw [hcond]
        simp
        omega

theorem countP_num_key {m : List (String × ScoreVal)} {k : String}
    (hnd : (scoreKeysJs m).Nodup) :
    m.countP (fun p => p.1 == k && isNumVal p.2) =
      (if k ∈ numScoreKeys m then 1 else 0) := by
  induction m with
  | nil => simp [numScoreKeys]
  | cons p t ih =>
      obtain ⟨k1, v1⟩ := p
      unfold scoreKeysJs at hnd
      rw [List.map_cons, List.nodup_cons] at hnd
      have iht := ih hnd.2
      rw [List.countP_cons, iht, numScoreKeys_cons]
      by_cases h : (k1 == k) = true
      · have hknt : k ∉ scoreKeysJs t := by
          rw [← beq_iff_eq.mp h]
          exact hnd.1
        have hnumt : k ∉ numScoreKeys t := fun hc => hknt (numScoreKeys_sub hc)
        rw [if_neg hnumt]
        have hcond : ((k1, v1).1 == k && isNumVal (k1, v1).2) = isNumVal v1 := by
          show (k1 == k && isNumVal v1) = isNumVal v1
          rw [h, Bool.true_and]
        rw [hcond]
        have hkk : k1 = k := beq_iff_eq.mp h
        cases v1 with
        | num n => simp [isNumVal, hkk, hnumt]
        | junk hh => simp [isNumVal, hnumt]
      · have hcond : ((k1, v1).1 == k && isNumVal (k1, v1).2) = false := by
          show (k1 == k && isNumVal v1) = false
          rw [Bool.eq_false_iff.mpr h, Bool.false_and]
        rw [hcond]
        have hkne : k ≠ k1 := fun hc => h (beq_iff_eq.mpr hc.symm)
        cases v1 with
        | num n => simp [isNumVal, hkne]
        | junk hh => simp [isNumVal]

theorem sumJs_bumpOwn {m : List (String × ScoreVal)} {k : String}
    (hnd : (scoreKeysJs m).Nodup) :
    sumScoresJs (bumpOwnJs m k) =
      sumScoresJs m + (if k ∈ numScoreKeys m then 1 else 0) := by
  rw [sumJs_bumpOwn_countP, countP_num_key hnd]

theorem sumJs_applyVoteJs {m : List (String × ScoreVal)} {v : Option String}
    (hnd : (scoreKeysJs m).Nodup) (hne : "" ∉ scoreKeysJs m) :
    sumScoresJs (applyVoteJs m v) =
      sumScoresJs m + (if countedVote (numScoreKeys m) v then 1 else 0) := by
  cases v with
  | none => simp [applyVoteJs_none, countedVote]
  | some s =>
      rw [applyVoteJs_some]
      by_cases hown : s ∈ scoreKeysJs m
      · have hs : s ≠ "" := fun h => hne (h ▸ hown)
        have hanyt : (m.any (fun p => p.1 == s)) = true := ownKeyJs_iff.mpr hown
        have hkj : (scoreKeyedJs m s : Prop) := by
          unfold scoreKeyedJs
          rw [hanyt]
          rfl
        rw [if_pos ⟨hs, hkj⟩]
        unfold bumpScoreJs
        rw [if_pos hanyt, sumJs_bumpOwn hnd]
        by_cases hmem : s ∈ numScoreKeys m
        · rw [if_pos hmem, if_pos (countedVote_some_iff.mpr hmem)]
        · rw [if_neg hmem, if_neg (fun hc => hmem (countedVote_some_iff.mp hc))]
      · have hnum : s ∉ numScoreKeys m := fun hc => hown (numScoreKeys_sub hc)
        have hany : (m.any (fun p => p.1 == s)) ≠ true :=
          fun hc => hown (ownKeyJs_iff.mp hc)
        rw [if_neg (fun hc => hnum (countedVote_some_iff.mp hc))]
        by_cases hg : s ≠ "" ∧ (scoreKeyedJs m s : Prop)
        · rw [if_pos hg]
          unfold bumpScoreJs
          rw [if_neg hany]
          by_cases hpp : protoProps.contains s
          · rw [if_pos hpp]
            unfold sumScoresJs
            rw [List.map_append, List.sum_append]
            simp [numVal]
          · rw [if_neg hpp]
            omega
        · rw [if_neg hg]
          omega

theorem keysJs_applyVoteJs (m : List (String × ScoreVal)) (v : Option String) :
    ∃ extra, scoreKeysJs (applyVoteJs m v) = scoreKeysJs m ++ extra ∧
      ∀ x ∈ extra, x ∈ protoProps := by
  cases v with
  | none => exact ⟨[], by simp [applyVoteJs_none], by simp⟩
  | some s =>
      rw [applyVoteJs_some]
      by_cases hg : s ≠ "" ∧ (scoreKeyedJs m s : Prop)
      · rw [if_pos hg]
        unfold bumpScoreJs
        by_cases hown : (m.any (fun p => p.1 == s)) = true
        · rw [if_pos hown]
          exact ⟨[], by rw [scoreKeysJs_bumpOwnJs, List.append_nil], by simp⟩
        · rw [if_neg hown]
          by_cases hpp : protoProps.contains s
          · rw [if_pos hpp]
            refine ⟨[s], ?_, ?_⟩
            · unfold scoreKeysJs
              rw [List.map_append]
              rfl
            · intro x hx
              rw [List.mem_singleton] at hx
              subst hx
              simpa using hpp
          · rw [if_neg hpp]
            exact ⟨[], by simp, by simp⟩
      · rw [if_neg hg]
        exact ⟨[], by simp, by simp⟩

theorem nodupJs_applyVoteJs {m : List (String × ScoreVal)} (v : Option String)
    (hnd : (scoreKeysJs m).Nodup) : (scoreKeysJs (applyVoteJs m v)).Nodup := by
  cases v with
  | none => exact hnd
  | some s =>
      rw [applyVoteJs_some]
      by_cases hg : s ≠ "" ∧ (scoreKeyedJs m s : Prop)
      · rw [if_pos hg]
        unfold bumpScoreJs
        by_cases hown : (m.any (fun p => p.1 == s)) = true
        · rw [if_pos hown, scoreKeysJs_bumpOwnJs]
          exact hnd
        · rw [if_neg hown]
          by_cases hpp : protoProps.contains s
          · rw [if_pos hpp]
            unfold scoreKeysJs
            rw [List.map_append]
            refine List.Nodup.append hnd (by simp) ?_
            intro x hx hx'
            simp at hx'
            subst hx'
            exact hown (ownKeyJs_iff.mpr hx)
          · rw [if_neg hpp]
            exact hnd
      · rw [if_neg hg]
        exact hnd

theorem noEmptyJs_applyVoteJs {m : List (String × ScoreVal)} (v : Option String)
    (hne : "" ∉ scoreKeysJs m) : "" ∉ scoreKeysJs (applyVoteJs m v) := by
  rcases keysJs_applyVoteJs m v with ⟨extra, heq, hpp⟩
  rw [heq]
  intro hmem
  rcases List.mem_append.mp hmem with h | h
  · exact hne h
  · exact absurd (hpp _ h) (by decide)

theorem numKeysJs_applyVoteJs (m : List (String × ScoreVal)) (v : Option String) :
    numScoreKeys (applyVoteJs m v) = numScoreKeys m := by
  cases v with
  | none => rfl
  | some s =>
      rw [applyVoteJs_some]
      by_cases hg : s ≠ "" ∧ (scoreKeyedJs m s : Prop)
      · rw [if_pos hg]
        unfold bumpScoreJs
        by_cases hown : (m.any (fun p => p.1 == s)) = true
        · rw [if_pos hown, numScoreKeys_bumpOwnJs]
        · rw [if_neg hown]
          by_cases hpp : protoProps.contains s
          · rw [if_pos hpp]
            unfold numScoreKeys
            rw [List.filter_append]
            simp [isNumVal]
          · rw [if_neg hpp]
      · rw [if_neg hg]

theorem foldl_applyVoteJs_numkeys (vs : List (Option String))
    (m : List (String × ScoreVal)) :
    numScoreKeys (vs.foldl applyVoteJs m) = numScoreKeys m := by
  induction vs generalizing m with
  | nil => rfl
  | cons v t ih =>
      rw [List.foldl_cons, ih, numKeysJs_applyVoteJs]

theorem foldl_applyVoteJs_sum (vs : List (Option String)) (m : List (String × ScoreVal))
    (hnd : (scoreKeysJs m).Nodup) (hne : "" ∉ scoreKeysJs m) :
    sumScoresJs (vs.foldl applyVoteJs m) =
      sumScoresJs m + vs.countP (fun v => countedVote (numScoreKeys m) v) := by
  induction vs generalizing m with
  | nil => simp
  | cons v t ih =>
      rw [List.foldl_cons, List.countP_cons]
      have hnum : numScoreKeys (applyVoteJs m v) = numScoreKeys m :=
        numKeysJs_applyVoteJs m v
      have := ih (applyVoteJs m v) (nodupJs_applyVoteJs v hnd) (noEmptyJs_applyVoteJs v hne)
      rw [this, hnum, sumJs_applyVoteJs hnd hne]
      omega

theorem foldl_applyVoteJs_keys (vs : List (Option String)) (m : List (String × ScoreVal)) :
    ∃ extra, scoreKeysJs (vs.foldl applyVoteJs m) = scoreKeysJs m ++ extra ∧
      ∀ x ∈ extra, x ∈ protoProps := by
  induction vs generalizing m with
  | nil => exact ⟨[], by simp, by simp⟩
  | cons v t ih =>
      rw [List.foldl_cons]
      rcases ih (applyVoteJs m v) with ⟨e2, he2, hp2⟩
      rcases keysJs_applyVoteJs m v with ⟨e1, he1, hp1⟩
      refine ⟨e1 ++ e2, ?_, ?_⟩
      · rw [he2, he1, List.append_assoc]
      · intro x hx
        rcases List.mem_append.mp hx with h | h
        · exact hp1 _ h
        · exact hp2 _ h

theorem initScoresJs_step_keys (m : List (String × ScoreVal)) (a : ModelAnswer) {x : String}
    (h : x ∈ scoreKeysJs (if a.model == "__proto__" then m
      else if m.any (fun p => p.1 == a.model) then m
      else m ++ [(a.model, ScoreVal.num 0)])) :
    x ∈ scoreKeysJs m ∨ x = a.model := by
  by_cases hpr : (a.model == "__proto__") = true
  · rw [if_pos hpr] at h
    exact Or.inl h
  · rw [if_neg hpr] at h
    by_cases hc : (m.any (fun p => p.1 == a.model)) = true
    · rw [if_pos hc] at h
      exact Or.inl h
    · rw [if_neg hc] at h
      unfold scoreKeysJs at h
      rw [List.map_append] at h
      rcases List.mem_append.mp h with h | h
      · exact Or.inl h
      · simp at h
        exact Or.inr h

theorem initScoresJs_fold_keys {l : List ModelAnswer} {m : List (String × ScoreVal)}
    {x : String}
    (h : x ∈ scoreKeysJs (l.foldl
      (fun m a =>
        if a.model == "__proto__" then m
        else if m.any (fun p => p.1 == a.model) then m
        else m ++ [(a.model, ScoreVal.num 0)]) m)) :
    x ∈ scoreKeysJs m ∨ ∃ a ∈ l, x = a.model := by
  induction l generalizing m with
  | nil => exact Or.inl h
  | cons a t ih =>
      rw [List.foldl_cons] at h
      rcases ih h with h' | ⟨b, hb, hx⟩
      · rcases initScoresJs_step_keys m a h' with h'' | h''
        · exact Or.inl h''
        · exact Or.inr ⟨a, List.mem_cons_self a t, h''⟩
      · exact Or.inr ⟨b, List.mem_cons_of_mem a hb, hx⟩

theorem initScoresJs_fold_nodup {l : List ModelAnswer} {m : List (String × ScoreVal)}
    (h : (scoreKeysJs m).Nodup) :
    (scoreKeysJs (l.foldl
      (fun m a =>
        if a.model == "__proto__" then m
        else if m.any (fun p => p.1 == a.model) then m
        else m ++ [(a.model, ScoreVal.num 0)]) m)).Nodup := by
  induction l generalizing m with
  | nil => exact h
  | cons a t ih =>
      rw [List.foldl_cons]
      refine ih ?_
      by_cases hpr : (a.model == "__proto__") = true
      · rw [if_pos hpr]
        exact h
      · rw [if_neg hpr]
        by_cases hc : (m.any (fun p => p.1 == a.model)) = true
        · rw [if_pos hc]
          exact h
        · rw [if_neg hc]
          unfold scoreKeysJs
          rw [List.map_append]
          refine List.Nodup.append h (by simp) ?_
          intro x hx hx'
          simp at hx'
          subst hx'
          exact hc (List.any_eq_true.mpr
            (by
              rcases List.mem_map.mp hx with ⟨p, hp, hpk⟩
              exact ⟨p, hp, beq_iff_eq.mpr hpk⟩))

theorem initScoresJs_fold_num {l : List ModelAnswer} {m : List (String × ScoreVal)}
    (h : ∀ p ∈ m, p.2 = ScoreVal.num 0) :
    ∀ p ∈ (l.foldl
      (fun m a =>
        if a.model == "__proto__" then m
        else if m.any (fun p => p.1 == a.model) then m
        else m ++ [(a.model, ScoreVal.num 0)]) m),
      p.2 = ScoreVal.num 0 := by
  induction l generalizing m with
  | nil => exact h
  | cons a t ih =>
      rw [List.foldl_cons]
      refine ih ?_
      by_cases hpr : (a.model == "__proto__") = true
      · rw [if_pos hpr]
        exact h
      · rw [if_neg hpr]
        by_cases hc : (m.any (fun p => p.1 == a.model)) = true
        · rw [if_pos hc]
          exact h
        · rw [if_neg hc]
          intro p hp
          rcases List.mem_append.mp hp with hp | hp
          · exact h p hp
          · simp at hp
            rw [hp]

theorem initScoresJs_nodup (answers : List ModelAnswer) :
    (scoreKeysJs (initScoresJs answers)).Nodup :=
  initScoresJs_fold_nodup (by simp [scoreKeysJs])

theorem initScoresJs_keys_sub {answers : List ModelAnswer} {x : String}
    (h : x ∈ scoreKeysJs (initScoresJs answers)) : ∃ a ∈ answers, x = a.model := by
  rcases initScoresJs_fold_keys h with h' | h'
  · simp [scoreKeysJs] at h'
  · exact h'

theorem initScoresJs_num (answers : List ModelAnswer) :
    ∀ p ∈ initScoresJs answers, p.2 = ScoreVal.num 0 :=
  initScoresJs_fold_num (by simp)

theorem sumScoresJs_initScoresJs (answers : List ModelAnswer) :
    sumScoresJs (initScoresJs answers) = 0 := by
  have h := initScoresJs_num answers
  unfold sumScoresJs
  rw [List.sum_eq_zero]
  intro x hx
  rcases List.mem_map.mp hx with ⟨p, hp, rfl⟩
  rw [h p hp]
  rfl

theorem numScoreKeys_all_num {m : List (String × ScoreVal)}
    (h : ∀ p ∈ m, p.2 = ScoreVal.num 0) : numScoreKeys m = scoreKeysJs m := by
  unfold numScoreKeys scoreKeysJs
  rw [List.filter_eq_self.mpr ?_]
  intro p hp
  rw [h p hp]
  rfl

theorem numScoreKeys_initScoresJs (answers : List ModelAnswer) :
    numScoreKeys (initScoresJs answers) = scoreKeysJs (initScoresJs answers) :=
  numScoreKeys_all_num (initScoresJs_num answers)

theorem initScoresJs_no_empty_key (choices : List Choice) :
    "" ∉ scoreKeysJs (initScoresJs (collectAnswers choices)) := by
  intro hmem
  rcases initScoresJs_keys_sub hmem with ⟨a, ha, hx⟩
  exact collectAnswers_model_ne choices a ha hx.symm

theorem runJudgesJs_fold (outcomes : Nat → JudgeOutcome) (l : List (Nat × ModelAnswer))
    (s : List (String × ScoreVal)) (vs : List JudgeVote) :
    l.foldl
      (fun acc ia =>
        (applyVoteJs acc.1 (judgeVotedId (outcomes ia.1)),
         acc.2 ++ [mkVote ia.2 (outcomes ia.1)]))
      (s, vs)
      = ((l.map (fun ia => judgeVotedId (outcomes ia.1))).foldl applyVoteJs s,
         vs ++ l.map (fun ia => mkVote ia.2 (outcomes ia.1))) := by
  induction l generalizing s vs with
  | nil => simp
  | cons ia t ih =>
      rw [List.foldl_cons, List.map_cons, List.map_cons, List.foldl_cons, ih]
      simp

theorem runJudgesJs_eq (scores0 : List (String × ScoreVal)) (answers : List ModelAnswer)
    (outcomes : Nat → JudgeOutcome) :
    runJudgesJs scores0 answers outcomes =
      ((answers.enum.map (fun ia => judgeVotedId (outcomes ia.1))).foldl applyVoteJs scores0,
       answers.enum.map (fun ia => mkVote ia.2 (outcomes ia.1))) := by
  unfold runJudgesJs
  rw [runJudgesJs_fold]
  simp

theorem crossEvalJs_components {choices : List Choice} {q : Option String}
    {outcomes : Nat → JudgeOutcome} {ev : CrossEvaluationJs}
    (h : runCrossEvaluationJs choices q outcomes = some ev) :
    ev.scores = ((collectAnswers choices).enum.map
        (fun ia => judgeVotedId (outcomes ia.1))).foldl applyVoteJs
        (initScoresJs (collectAnswers choices)) ∧
    ev.judges = (collectAnswers choices).enum.map (fun ia => mkVote ia.2 (outcomes ia.1)) ∧
    2 ≤ (collectAnswers choices).length := by
  simp only [runCrossEvaluationJs] at h
  by_cases h1 : q = none ∨ q = some "" ∨ choices.length < 2
  · rw [if_pos h1] at h
    cases h
  · rw [if_neg h1] at h
    by_cases h2 : (collectAnswers choices).length < 2
    · rw [if_pos h2] at h
      cases h
    · rw [if_neg h2] at h
      have hev := (Option.some.inj h).symm
      subst hev
      rw [runJudgesJs_eq]
      exact ⟨rfl, rfl, Nat.le_of_not_lt h2⟩

theorem crossEvalJs_sum_eq {choices : List Choice} {q : Option String}
    {outcomes : Nat → JudgeOutcome} {ev : CrossEvaluationJs}
    (h : runCrossEvaluationJs choices q outcomes = some ev) :
    sumScoresJs ev.scores =
      (ev.judges.filter
        (fun jv => countedVote (numScoreKeys ev.scores) jv.votedModelId)).length := by
  obtain ⟨hs, hj, -⟩ := crossEvalJs_components h
  rw [hs, hj, foldl_applyVoteJs_sum _ _ (initScoresJs_nodup _)
        (initScoresJs_no_empty_key choices),
      sumScoresJs_initScoresJs, Nat.zero_add, ← List.countP_eq_length_filter,
      List.countP_map, foldl_applyVoteJs_numkeys]
  rw [List.countP_map]
  rfl

theorem crossEvalJs_judges_votes {choices : List Choice} {q : Option String}
    {outcomes : Nat → JudgeOutcome} {ev : CrossEvaluationJs}
    (h : runCrossEvaluationJs choices q outcomes = some ev) :
    ∀ (i : Nat) (jv : JudgeVote), ev.judges.get? i = some jv →
      jv.votedModelId = judgeVotedId (outcomes i) := by
  obtain ⟨-, hj, -⟩ := crossEvalJs_components h
  intro i jv hjv
  rw [hj, List.get?_eq_getElem?, List.getElem?_map, List.getElem?_enum] at hjv
  cases hx : (collectAnswers choices)[i]? with
  | none =>
      rw [hx] at hjv
      cases hjv
  | some a =>
      rw [hx] at hjv
      have : jv = mkVote a (outcomes i) := (Option.some.inj hjv).symm
      rw [this]
      rfl

/-! ### C1 -/

/-- C1: in a completed round the winner is the result of the strict-maximum
scan of the scores in candidate order: it is always a key of `scores`
(never null); a round where every score is zero yields the first candidate;
and in general the first entry whose score is strictly above everything
before it and at least everything after it wins, so the first candidate in
arrival order wins all ties. -/
theorem winner_selection_spec {choices : List Choice} {q : Option String}
    {outcomes : Nat → JudgeOutcome} {ev : CrossEvaluation}
    (h : runCrossEvaluation choices q outcomes = some ev) :
    (∃ w, ev.winnerModelId = some w ∧ w ∈ scoreKeys ev.scores) ∧
    ((∀ p ∈ ev.scores, p.2 = 0) →
      ev.winnerModelId = ((collectAnswers choices).head?).map (fun a => a.model)) ∧
    (∀ l₁ (w : String) (v : Nat) l₂, ev.scores = l₁ ++ (w, v) :: l₂ →
      (∀ p ∈ l₁, p.2 < v) → (∀ p ∈ l₂, p.2 ≤ v) → ev.winnerModelId = some w) := by
  obtain ⟨hs, -, hw, -, hlen⟩ := crossEval_components h
  have hkeys := crossEval_keys h
  have hanne : collectAnswers choices ≠ [] := by
    intro hn
    rw [hn] at hlen
    simp at hlen
  obtain ⟨a, rest, hcons⟩ := List.exists_cons_of_ne_nil hanne
  have hkhead : (scoreKeys ev.scores).head? = some a.model := by
    rw [hkeys, hcons]
    unfold scoreKeys
    rw [List.head?_map, initScores_head]
    rfl
  have hne : ev.scores ≠ [] := by
    intro hn
    rw [hn] at hkhead
    simp [scoreKeys] at hkhead
  refine ⟨?_, ?_, ?_⟩
  · obtain ⟨w, hw1, hw2⟩ := pickWinner_isKey hne
    exact ⟨w, by rw [hw, hw1], hw2⟩
  · intro hzero
    rw [hw, pickWinner_all_zero hzero hne, hcons]
    have : (ev.scores.head?).map (fun p => p.1) = (scoreKeys ev.scores).head? := by
      unfold scoreKeys
      rw [List.head?_map]
    rw [this, hkhead]
    rfl
  · intro l₁ w v l₂ hdec h₁ h₂
    rw [hw, hdec]
    exact pickWinner_first_max l₁ w v l₂ h₁ h₂

/-- Witness for C1 at a concrete zero-vote round: both judges fail, the
winner is the first candidate and a key of the scores. -/
theorem winner_selection_spec_witness :
    (∃ w, evAllFail.winnerModelId = some w ∧ w ∈ scoreKeys evAllFail.scores) ∧
    ((∀ p ∈ evAllFail.scores, p.2 = 0) →
      evAllFail.winnerModelId = ((collectAnswers [choiceA, choiceB]).head?).map
        (fun a => a.model)) ∧
    evTie.winnerModelId = some "model-a" :=
  ⟨(@winner_selection_spec [choiceA, choiceB] (some "Q") allFailOutcomes evAllFail
      (by decide)).1,
   (@winner_selection_spec [choiceA, choiceB] (some "Q") allFailOutcomes evAllFail
      (by decide)).2.1,
   (@winner_selection_spec [choiceA, choiceB] (some "Q") tieVoteOutcomes evTie
      (by decide)).2.2 [] "model-a" 1 [("model-b", 1)] (by decide) (by decide) (by decide)⟩

/-! ### C2 -/

/-- C2 counterexample: with candidates model-a and model-b, judge 0's reply
names the unknown id model-zzz and judge 1 fails; the vote record stores the
non-null id but the score sum stays 0, while the claimed count of non-null
votes is 1. -/
theorem scores_sum_invariant_cex :
    (runCrossEvaluation [choiceA, choiceB] (some "Q") unknownVoteOutcomes).map
      (fun ev => (sumScores ev.scores,
        (ev.judges.filter (fun jv => jv.votedModelId.isSome)).length,
        ev.judges.map (fun jv => jv.votedModelId)))
      = some (0, 1, [some "model-zzz", none]) := by
  decide

/-- C2 (amended): in every completed round, under full JS object semantics,
the sum of the numeric values of the scores map equals the number of judge
vote records whose `votedModelId` names a numeric-valued key of the scores
map (exactly the keys initialized from the candidates).  A non-null vote
for any other id adds nothing to the sum: an unknown id leaves the map
unchanged, and an `Object.prototype` member name such as toString passes
the probe of line 181 and creates a new own key, but its value is a
non-numeric string outside every numeric total. -/
theorem scores_sum_numeric_votes {choices : List Choice} {q : Option String}
    {outcomes : Nat → JudgeOutcome} {ev : CrossEvaluationJs}
    (h : runCrossEvaluationJs choices q outcomes = some ev) :
    sumScoresJs ev.scores =
      (ev.judges.filter
        (fun jv => countedVote (numScoreKeys ev.scores) jv.votedModelId)).length :=
  crossEvalJs_sum_eq h

/-- Witness for the amended C2 at a concrete round where judge 0 votes for
the inherited member name toString: a junk own key is appended, and the
numeric sum 0 matches the zero counted votes. -/
theorem scores_sum_numeric_votes_witness :
    runCrossEvaluationJs [choiceA, choiceB] (some "Q") protoVoteOutcomes
      = some evProtoVote ∧
    sumScoresJs evProtoVote.scores =
      (evProtoVote.judges.filter
        (fun jv => countedVote (numScoreKeys evProtoVote.scores)
          jv.votedModelId)).length :=
  ⟨by decide, @scores_sum_numeric_votes [choiceA, choiceB] (some "Q") protoVoteOutcomes
    evProtoVote (by decide)⟩

end MinorProject

namespace MinorProject

/-! ### C3 -/

/-- C3 counterexample: judge 0 (model-a) parses to a vote for model-a, its
own backend.  The resulting record stores `votedModelId = some "model-a"`
(not null, as the claim requires) and the self-vote even increments
model-a's score. -/
theorem self_vote_nulled_cex :
    (runCrossEvaluation [choiceA, choiceB] (some "Q") selfVoteOutcomes).map
      (fun ev => (ev.judges.map (fun jv => jv.votedModelId), ev.scores))
      = some ([some "model-a", none], [("model-a", 1), ("model-b", 0)]) := by
  decide

/-- C3 (amended): a judge whose parsed reply names its own backend gets that
id stored in its vote record, exactly like any other parsed vote — only
unparseable, errored, timed-out or non-string replies (and parsed objects
without a string winner_model_id) yield a null vote. -/
theorem self_vote_recorded {choices : List Choice} {q : Option String}
    {outcomes : Nat → JudgeOutcome} {ev : CrossEvaluation}
    (h : runCrossEvaluation choices q outcomes = some ev)
    {i : Nat} {jv : JudgeVote} (hjv : ev.judges.get? i = some jv)
    {v : String} (hv : judgeVotedId (outcomes i) = some v)
    (hself : ((collectAnswers choices).get? i).map (fun a => a.model) = some v) :
    jv.votedModelId = some v := by
  obtain ⟨-, hget⟩ := crossEval_judges_get h
  rw [hget i] at hjv
  cases ha : (collectAnswers choices).get? i with
  | none =>
      rw [ha] at hjv
      cases hjv
  | some a =>
      rw [ha] at hjv
      have : jv = mkVote a (outcomes i) := (Option.some.inj hjv).symm
      rw [this]
      show judgeVotedId (outcomes i) = some v
      exact hv

/-- Witness for the amended C3: the self-voting judge's record carries its
own id. -/
theorem self_vote_recorded_witness :
    runCrossEvaluation [choiceA, choiceB] (some "Q") selfVoteOutcomes = some evSelfVote ∧
    ({ judgeModelId := "model-a", votedModelId := some "model-a",
       reasoning := none } : JudgeVote).votedModelId = some "model-a" :=
  ⟨by decide,
   @self_vote_recorded [choiceA, choiceB] (some "Q") selfVoteOutcomes evSelfVote
     (by decide) 0 (⟨"model-a", some "model-a", none⟩ : JudgeVote)
     (by decide) "model-a" (by decide) (by decide)⟩

/-! ### C4 -/

/-- C4 counterexample: with candidates model-a and model-b, judge 0's
parsed reply names toString — an id not present in scores — so the claim
demands that no score change and no key be added; but the probe of line 181
finds the inherited `Object.prototype.toString` (not null) and `+= 1` then
creates a NEW own key holding a non-numeric string, which `Object.entries`
reports alongside the candidates. -/
theorem scores_proto_key_cex :
    (runCrossEvaluationJs [choiceA, choiceB] (some "Q") protoVoteOutcomes).map
      (fun ev => (ev.scores, ev.judges.map (fun jv => jv.votedModelId)))
      = some ([("model-a", ScoreVal.num 0), ("model-b", ScoreVal.num 0),
               ("toString", ScoreVal.junk 1)],
              [some "toString", none]) := by
  decide

/-- C4 (amended): in every completed round the numeric score sum equals the
count of judges whose recorded vote names a numeric-valued key (exactly the
keys initialized from the candidates, a set that never changes) and is at
most the number of judges; every judge's parsed vote is stored in its
record whether or not it matched; and the only keys ever added past
initialization are `Object.prototype` member names, whose string values
stay outside every numeric total. -/
theorem scores_proto_chain_spec {choices : List Choice} {q : Option String}
    {outcomes : Nat → JudgeOutcome} {ev : CrossEvaluationJs}
    (h : runCrossEvaluationJs choices q outcomes = some ev) :
    sumScoresJs ev.scores ≤ ev.judges.length ∧
    numScoreKeys ev.scores = scoreKeysJs (initScoresJs (collectAnswers choices)) ∧
    (∃ extra, scoreKeysJs ev.scores =
        scoreKeysJs (initScoresJs (collectAnswers choices)) ++ extra ∧
      ∀ x ∈ extra, x ∈ protoProps) ∧
    (∀ (i : Nat) (jv : JudgeVote), ev.judges.get? i = some jv →
      jv.votedModelId = judgeVotedId (outcomes i)) := by
  obtain ⟨hs, -, -⟩ := crossEvalJs_components h
  refine ⟨?_, ?_, ?_, crossEvalJs_judges_votes h⟩
  · rw [crossEvalJs_sum_eq h]
    exact List.length_filter_le _ _
  · rw [hs, foldl_applyVoteJs_numkeys, numScoreKeys_initScoresJs]
  · rw [hs]
    exact foldl_applyVoteJs_keys _ _

/-- Witness for the amended C4 at a concrete round mixing a prototype-name
vote with a counted vote: sum 1 is bounded by 2 judges, the numeric keys
are the initialized candidates, and the only added key is the prototype
member name hasOwnProperty. -/
theorem scores_proto_chain_spec_witness :
    runCrossEvaluationJs [choiceA, choiceB] (some "Q") protoMixOutcomes
      = some evProtoMix ∧
    sumScoresJs evProtoMix.scores ≤ evProtoMix.judges.length ∧
    numScoreKeys evProtoMix.scores =
      scoreKeysJs (initScoresJs (collectAnswers [choiceA, choiceB])) ∧
    (∃ extra, scoreKeysJs evProtoMix.scores =
        scoreKeysJs (initScoresJs (collectAnswers [choiceA, choiceB])) ++ extra ∧
      ∀ x ∈ extra, x ∈ protoProps) :=
  ⟨by decide,
   (@scores_proto_chain_spec [choiceA, choiceB] (some "Q") protoMixOutcomes
      evProtoMix (by decide)).1,
   (@scores_proto_chain_spec [choiceA, choiceB] (some "Q") protoMixOutcomes
      evProtoMix (by decide)).2.1,
   (@scores_proto_chain_spec [choiceA, choiceB] (some "Q") protoMixOutcomes
      evProtoMix (by decide)).2.2.1⟩

/-! ### C5 -/

/-- C5 counterexample: with question "Q" and two choices of which only one
carries a defined non-empty text — the other has a usable model and message
but no content value — the claim demands a null return without judge
requests; instead line 64 leaves that content undefined, and line 72's
`a.content.trim()` throws a TypeError out of the round (which the handler's
catch turns into a 500 response). -/
theorem evaluate_precondition_throws_cex :
    runCrossEvaluationRaw [rawChoiceA, rawUndefChoice] (some "Q") allFailOutcomes
      = Except.error () ∧
    (definedAnswers [rawChoiceA, rawUndefChoice]).length < 2 :=
  ⟨rfl, by decide⟩

/-- C5 (amended): provided every choice kept by the map of lines 55-71
carries a defined content value, the evaluation returns null and dispatches
no judge request whenever the question is absent or empty or fewer than two
normalized candidates remain; but when some kept choice's content is
undefined, the call throws out of line 72 instead of returning null, even
if those same preconditions fail. -/
theorem evaluate_raw_null_or_throw {choices : List RawChoice} {q : Option String}
    (outcomes : Nat → JudgeOutcome) :
    (∀ answers, collectAnswersRaw choices = Except.ok answers →
      (q = none ∨ q = some "" ∨ answers.length < 2) →
      runCrossEvaluationRaw choices q outcomes = Except.ok none ∧
      crossEvalCallsRaw choices q = []) ∧
    (collectAnswersRaw choices = Except.error () →
      ¬ (q = none ∨ q = some "" ∨ choices.length < 2) →
      runCrossEvaluationRaw choices q outcomes = Except.error ()) := by
  constructor
  · intro answers hok h
    by_cases h1 : q = none ∨ q = some "" ∨ choices.length < 2
    · constructor
      · simp only [runCrossEvaluationRaw]
        rw [if_pos h1]
      · simp only [crossEvalCallsRaw]
        rw [if_pos h1]
    · have h2 : answers.length < 2 := by
        rcases h with h | h | h
        · exact absurd (Or.inl h) h1
        · exact absurd (Or.inr (Or.inl h)) h1
        · exact h
      constructor
      · simp only [runCrossEvaluationRaw, hok]
        rw [if_neg h1, if_pos h2]
      · simp only [crossEvalCallsRaw, hok]
        rw [if_neg h1, if_pos h2]
  · intro herr h1
    simp only [runCrossEvaluationRaw, herr]
    rw [if_neg h1]

/-- Witness for the amended C5: one defined candidate yields a null
evaluation with no judge calls, while adding a content-less choice makes
the round throw instead. -/
theorem evaluate_raw_null_or_throw_witness :
    collectAnswersRaw [rawChoiceA, rawNoModel] = Except.ok [answerA] ∧
    runCrossEvaluationRaw [rawChoiceA, rawNoModel] (some "Q") allFailOutcomes
      = Except.ok none ∧
    crossEvalCallsRaw [rawChoiceA, rawNoModel] (some "Q") = [] ∧
    runCrossEvaluationRaw [rawChoiceA, rawUndefChoice] (some "Q2") allFailOutcomes
      = Except.error () :=
  ⟨rfl,
   ((@evaluate_raw_null_or_throw [rawChoiceA, rawNoModel] (some "Q") allFailOutcomes).1
      [answerA] rfl (Or.inr (Or.inr (by decide)))).1,
   ((@evaluate_raw_null_or_throw [rawChoiceA, rawNoModel] (some "Q") allFailOutcomes).1
      [answerA] rfl (Or.inr (Or.inr (by decide)))).2,
   (@evaluate_raw_null_or_throw [rawChoiceA, rawUndefChoice] (some "Q2")
      allFailOutcomes).2 rfl (by decide)⟩

/-! ### C7 -/

/-- C7: every completed round has exactly one vote record per valid
candidate — position `i` of the judges sequence is the vote of candidate
`i` — for every assignment of judge outcomes, so no failed, unparseable or
errored judge removes, duplicates or prevents an entry, and no judge failure
aborts the round. -/
theorem one_vote_per_judge {choices : List Choice} {q : Option String}
    {outcomes : Nat → JudgeOutcome} {ev : CrossEvaluation}
    (h : runCrossEvaluation choices q outcomes = some ev) :
    ev.judges.length = (collectAnswers choices).length ∧
    ∀ i : Nat, (ev.judges.get? i).map (fun jv => jv.judgeModelId) =
      ((collectAnswers choices).get? i).map (fun a => a.model) := by
  obtain ⟨hlen, hget⟩ := crossEval_judges_get h
  refine ⟨hlen, fun i => ?_⟩
  rw [hget i]
  cases (collectAnswers choices).get? i <;> rfl

/-- Witness for C7 at a round where both judges fail over HTTP: both entries
exist, aligned with the candidates. -/
theorem one_vote_per_judge_witness :
    evAllFail.judges.length = (collectAnswers [choiceA, choiceB]).length ∧
    (evAllFail.judges.get? 1).map (fun jv => jv.judgeModelId) =
      ((collectAnswers [choiceA, choiceB]).get? 1).map (fun a => a.model) :=
  ⟨(@one_vote_per_judge [choiceA, choiceB] (some "Q") allFailOutcomes evAllFail
      (by decide)).1,
   (@one_vote_per_judge [choiceA, choiceB] (some "Q") allFailOutcomes evAllFail
      (by decide)).2 1⟩

end MinorProject

namespace MinorProject

/-! ### Consumed-input lemmas for the JSON parser -/

theorem suffix_weaken {c : Char} {l₁ l₂ : List Char} (h : (c :: l₁) <:+ l₂) : l₁ <:+ l₂ :=
  (List.suffix_cons c l₁).trans h

theorem parseStrRest_suffix : ∀ (cs : List Char), ∀ (s rest : List Char),
    parseStrRest cs = some (s, rest) → ('"' :: rest) <:+ cs := by
  intro cs
  induction cs using parseStrRest.induct <;> intro s rest h <;>
    simp only [parseStrRest] at h
  case case1 => cases h
  case case2 r =>
      obtain ⟨-, rfl⟩ := Prod.mk.injEq .. ▸ Option.some.inj h
      exact List.suffix_refl _
  all_goals repeat' split at h
  all_goals try cases h
  all_goals
    (repeat' apply suffix_step)
  all_goals
    first
    | solve_by_elim
    | simp_all

theorem numChar_of_digit {d : Char} (h : d.isDigit = true) : numChar d = true := by
  simp [numChar, h]

theorem parseDigits_spec {cs ds rest : List Char} (h : parseDigits cs = some (ds, rest)) :
    ∃ d, (d :: rest) <:+ cs ∧ d.isDigit = true := by
  simp only [parseDigits] at h
  split at h
  · cases h
  · rename_i hne
    obtain ⟨-, rfl⟩ := Prod.mk.injEq .. ▸ Option.some.inj h
    rcases List.eq_nil_or_concat (cs.takeWhile Char.isDigit) with hnil | ⟨L, d, hLd⟩
    · exact absurd hnil hne
    · refine ⟨d, ⟨L, ?_⟩, ?_⟩
      · have hc := List.takeWhile_append_dropWhile Char.isDigit cs
        rw [hLd] at hc
        simpa [List.concat_eq_append, List.append_assoc] using hc
      · have hd : d ∈ cs.takeWhile Char.isDigit := by
          rw [hLd]
          simp
        exact List.mem_takeWhile_imp hd

theorem parseIntPart_spec {cs ip rest : List Char} (h : parseIntPart cs = some (ip, rest)) :
    ∃ d, (d :: rest) <:+ cs ∧ d.isDigit = true := by
  unfold parseIntPart at h
  split at h
  · obtain ⟨-, rfl⟩ := Prod.mk.injEq .. ▸ Option.some.inj h
    exact ⟨'0', List.suffix_refl _, by decide⟩
  · exact parseDigits_spec h

theorem parseFrac_spec {cs fp rest : List Char} (h : parseFrac cs = some (fp, rest)) :
    rest = cs ∨ ∃ d, (d :: rest) <:+ cs ∧ d.isDigit = true := by
  unfold parseFrac at h
  split at h
  · split at h
    · rename_i ds r heq
      obtain ⟨-, rfl⟩ := Prod.mk.injEq .. ▸ Option.some.inj h
      obtain ⟨d, hsuf, hdig⟩ := parseDigits_spec heq
      exact Or.inr ⟨d, suffix_step hsuf, hdig⟩
    · cases h
  · obtain ⟨-, rfl⟩ := Prod.mk.injEq .. ▸ Option.some.inj h
    exact Or.inl rfl

theorem expSignSplit_suffix (cs : List Char) : (expSignSplit cs).2 <:+ cs := by
  unfold expSignSplit
  split
  · split
    · exact List.suffix_cons _ _
    · exact List.suffix_refl _
  · exact List.suffix_refl _

theorem parseExpPart_spec {cs ep rest : List Char} (h : parseExpPart cs = some (ep, rest)) :
    rest = cs ∨ ∃ d, (d :: rest) <:+ cs ∧ d.isDigit = true := by
  unfold parseExpPart at h
  split at h
  · rename_i c rest₀
    split at h
    · split at h
      · rename_i ds r heq
        obtain ⟨-, rfl⟩ := Prod.mk.injEq .. ▸ Option.some.inj h
        obtain ⟨d, hsuf, hdig⟩ := parseDigits_spec heq
        exact Or.inr ⟨d, suffix_step (hsuf.trans (expSignSplit_suffix rest₀)), hdig⟩
      · cases h
    · obtain ⟨-, rfl⟩ := Prod.mk.injEq .. ▸ Option.some.inj h
      exact Or.inl rfl
  · obtain ⟨-, rfl⟩ := Prod.mk.injEq .. ▸ Option.some.inj h
    exact Or.inl rfl

theorem numSignSplit_suffix (cs : List Char) : (numSignSplit cs).2 <:+ cs := by
  unfold numSignSplit
  split
  · exact List.suffix_cons _ _
  · exact List.suffix_refl _

theorem parseNum_spec {cs lex rest : List Char} (h : parseNum cs = some (lex, rest)) :
    ∃ d, (d :: rest) <:+ cs ∧ numChar d = true := by
  unfold parseNum at h
  split at h
  · cases h
  · rename_i ip cs2 hip
    split at h
    · cases h
    · rename_i fp cs3 hfrac
      split at h
      · cases h
      · rename_i ep cs4 hexp
        obtain ⟨-, rfl⟩ := Prod.mk.injEq .. ▸ Option.some.inj h
        obtain ⟨d1, hs1, hd1⟩ := parseIntPart_spec hip
        have hcs2 : cs2 <:+ cs := (suffix_weaken hs1).trans (numSignSplit_suffix cs)
        rcases parseExpPart_spec hexp with rfl | ⟨d3, hs3, hd3⟩
        · rcases parseFrac_spec hfrac with rfl | ⟨d2, hs2, hd2⟩
          · exact ⟨d1, hs1.trans (numSignSplit_suffix cs), numChar_of_digit hd1⟩
          · exact ⟨d2, hs2.trans hcs2, numChar_of_digit hd2⟩
        · have hcs3 : cs3 <:+ cs := by
            rcases parseFrac_spec hfrac with rfl | ⟨d2, hs2, -⟩
            · exact hcs2
            · exact (suffix_weaken hs2).trans hcs2
          exact ⟨d3, hs3.trans hcs3, numChar_of_digit hd3⟩

end MinorProject

namespace MinorProject

theorem skipWs_cons_suffix {cs r : List Char} {c : Char} (h : skipWs cs = c :: r) :
    r <:+ cs :=
  suffix_weaken (h ▸ skipWs_suffix cs)

theorem skipWs_eq_suffix {cs r : List Char} (h : skipWs cs = r) : r <:+ cs :=
  h ▸ skipWs_suffix cs

theorem skipWs_eq_suffix2 {cs r : List Char} (h : r = skipWs cs) : r <:+ cs :=
  h ▸ skipWs_suffix cs

theorem parseStrRest_tail {cs s r : List Char} (h : parseStrRest cs = some (s, r)) :
    r <:+ cs :=
  suffix_weaken (parseStrRest_suffix cs s r h)

theorem parseNum_tail {cs lex r : List Char} (h : parseNum cs = some (lex, r)) :
    r <:+ cs := by
  obtain ⟨d, hs, -⟩ := parseNum_spec h
  exact suffix_weaken hs

set_option maxHeartbeats 2000000 in
theorem parse_suffix : ∀ f : Nat,
    (∀ cs v rest, parseVal f cs = some (v, rest) → rest <:+ cs) ∧
    (∀ cs kvs rest, parseMembers f cs = some (kvs, rest) → rest <:+ cs) ∧
    (∀ cs xs rest, parseItems f cs = some (xs, rest) → rest <:+ cs) := by
  intro f
  induction f with
  | zero =>
      refine ⟨?_, ?_, ?_⟩ <;> intro cs a rest h <;>
        simp [parseVal, parseMembers, parseItems] at h
  | succ f ih =>
      obtain ⟨ihv, ihm, ihi⟩ := ih
      have ihv2 : ∀ cs v r, parseVal f (skipWs cs) = some (v, r) → r <:+ cs :=
        fun _ _ _ hh => (ihv _ _ _ hh).trans (skipWs_suffix _)
      have ihm2 : ∀ cs kvs r, parseMembers f (skipWs cs) = some (kvs, r) → r <:+ cs :=
        fun _ _ _ hh => (ihm _ _ _ hh).trans (skipWs_suffix _)
      have ihi2 : ∀ cs xs r, parseItems f (skipWs cs) = some (xs, r) → r <:+ cs :=
        fun _ _ _ hh => (ihi _ _ _ hh).trans (skipWs_suffix _)
      refine ⟨?_, ?_, ?_⟩ <;> intro cs a rest h <;> simp only [parseVal, parseMembers,
        parseItems] at h <;> repeat' split at h
      all_goals try cases h
      all_goals
        first
        | (rename_i x4 s r1 hstr x3 r2 hsw1 x2 v r3 hval x1 r4 hsw2 x0 kvs2 hmem
           exact suffix_step ((((ihm2 _ _ _ hmem).trans (skipWs_cons_suffix hsw2)).trans
             ((ihv2 _ _ _ hval).trans (skipWs_cons_suffix hsw1))).trans
             (parseStrRest_tail hstr)))
        | (rename_i x3 s r1 hstr x2 r2 hsw1 x1 v r3 hval x0 hsw2
           exact suffix_step (((skipWs_cons_suffix hsw2).trans
             ((ihv2 _ _ _ hval).trans (skipWs_cons_suffix hsw1))).trans
             (parseStrRest_tail hstr)))
        | (rename_i x2 v r1 hval x1 r2 hsw x0 xs2 hitems
           exact ((ihi2 _ _ _ hitems).trans (skipWs_cons_suffix hsw)).trans (ihv _ _ _ hval))
        | solve_by_elim [List.IsSuffix.trans, skipWs_cons_suffix, skipWs_eq_suffix,
            skipWs_eq_suffix2, parseStrRest_tail, parseNum_tail, List.suffix_refl,
            ihv, ihm, ihi, ihv2, ihm2, ihi2]
        | (repeat' apply suffix_step
           solve_by_elim [List.IsSuffix.trans, skipWs_cons_suffix, skipWs_eq_suffix,
             skipWs_eq_suffix2, parseStrRest_tail, parseNum_tail, List.suffix_refl,
             ihv, ihm, ihi, ihv2, ihm2, ihi2])

end MinorProject

namespace MinorProject

theorem iff_not_obj {d : Char} {v : Json} (hd : ¬ d = '}')
    (hv : ∀ kvs, ¬ v = Json.obj kvs) :
    ((d = '}') ↔ ∃ kvs, v = Json.obj kvs) :=
  ⟨fun h => absurd h hd, fun ⟨kvs, h⟩ => absurd h (hv kvs)⟩

theorem imp_not_obj {v : Json} {P : Prop} (hv : ∀ kvs, ¬ v = Json.obj kvs) :
    (∃ kvs, v = Json.obj kvs) → P :=
  fun ⟨kvs, h⟩ => absurd h (hv kvs)

set_option maxHeartbeats 1000000 in
theorem parseMembers_closes : ∀ (f : Nat) (cs : List Char)
    (kvs : List (String × Json)) (rest : List Char),
    parseMembers f cs = some (kvs, rest) → ('}' :: rest) <:+ cs := by
  intro f
  induction f with
  | zero => intro cs kvs rest h; simp [parseMembers] at h
  | succ f ih =>
      intro cs kvs rest h
      simp only [parseMembers] at h
      repeat' split at h
      all_goals try cases h
      all_goals
        first
        | (rename_i x4 s r1 hstr x3 r2 hsw1 x2 v r3 hval x1 r4 hsw2 x0 kvs2 hmem
           exact suffix_step ((((((ih _ _ _ hmem).trans (skipWs_suffix r4)).trans
             (skipWs_cons_suffix hsw2)).trans
             (((parse_suffix f).1 _ _ _ hval).trans (skipWs_suffix r2))).trans
             (skipWs_cons_suffix hsw1)).trans (parseStrRest_tail hstr)))
        | (rename_i x3 s r1 hstr x2 r2 hsw1 x1 v r3 hval x0 hsw2
           exact suffix_step ((((skipWs_eq_suffix hsw2).trans
             (((parse_suffix f).1 _ _ _ hval).trans (skipWs_suffix r2))).trans
             (skipWs_cons_suffix hsw1)).trans (parseStrRest_tail hstr)))

set_option maxHeartbeats 1000000 in
theorem parseItems_closes : ∀ (f : Nat) (cs : List Char)
    (xs : List Json) (rest : List Char),
    parseItems f cs = some (xs, rest) → (']' :: rest) <:+ cs := by
  intro f
  induction f with
  | zero => intro cs xs rest h; simp [parseItems] at h
  | succ f ih =>
      intro cs xs rest h
      simp only [parseItems] at h
      repeat' split at h
      all_goals try cases h
      all_goals
        first
        | (rename_i x2 v r1 hval x1 r2 hsw x0 xs2 hitems
           exact (((ih _ _ _ hitems).trans (skipWs_suffix r2)).trans
             (skipWs_cons_suffix hsw)).trans ((parse_suffix f).1 _ _ _ hval))
        | (rename_i x1 v r1 hval x0 hsw
           exact (skipWs_eq_suffix hsw).trans ((parse_suffix f).1 _ _ _ hval))

set_option maxHeartbeats 1000000 in
theorem parseVal_shape : ∀ (f : Nat) (cs : List Char) (v : Json) (rest : List Char),
    parseVal f cs = some (v, rest) →
    ∃ d, (d :: rest) <:+ cs ∧ ((d = '}') ↔ ∃ kvs, v = Json.obj kvs) ∧
      ((∃ kvs, v = Json.obj kvs) → cs.head? = some '{') := by
  intro f cs v rest h
  cases f with
  | zero => simp [parseVal] at h
  | succ f =>
      simp only [parseVal] at h
      repeat' split at h
      all_goals try cases h
      all_goals
        first
        | (rename_i cs0 c rest0 hc x0 hsw
           subst hc
           exact ⟨'}', suffix_step (skipWs_eq_suffix hsw), by simp, fun _ => rfl⟩)
        | (rename_i cs0 c rest0 hc x2 x1 x0 kvs0 hm
           subst hc
           exact ⟨'}', suffix_step ((parseMembers_closes f _ _ _ hm).trans
             (skipWs_suffix rest0)), by simp, fun _ => rfl⟩)
        | (rename_i cs0 c rest0 hc1 hc x0 hsw
           exact ⟨']', suffix_step (skipWs_eq_suffix hsw),
             iff_not_obj (by decide) (fun _ hk => Json.noConfusion hk),
             imp_not_obj (fun _ hk => Json.noConfusion hk)⟩)
        | (rename_i cs0 c rest0 hc1 hc x2 x1 x0 xs0 hi
           exact ⟨']', suffix_step ((parseItems_closes f _ _ _ hi).trans
             (skipWs_suffix rest0)),
             iff_not_obj (by decide) (fun _ hk => Json.noConfusion hk),
             imp_not_obj (fun _ hk => Json.noConfusion hk)⟩)
        | (rename_i cs0 c rest0 hc2 hc1 hc x0 s0 hstr
           exact ⟨'"', suffix_step (parseStrRest_suffix _ _ _ hstr),
             iff_not_obj (by decide) (fun _ hk => Json.noConfusion hk),
             imp_not_obj (fun _ hk => Json.noConfusion hk)⟩)
        | (rename_i cs0 c h1 h2 h3 hc rest0
           exact ⟨'e', ⟨[c, 'r', 'u'], rfl⟩,
             iff_not_obj (by decide) (fun _ hk => Json.noConfusion hk),
             imp_not_obj (fun _ hk => Json.noConfusion hk)⟩)
        | (rename_i cs0 c h1 h2 h3 h4 hc rest0
           exact ⟨'e', ⟨[c, 'a', 'l', 's'], rfl⟩,
             iff_not_obj (by decide) (fun _ hk => Json.noConfusion hk),
             imp_not_obj (fun _ hk => Json.noConfusion hk)⟩)
        | (rename_i cs0 c h1 h2 h3 h4 h5 hc rest0
           exact ⟨'l', ⟨[c, 'u', 'l'], rfl⟩,
             iff_not_obj (by decide) (fun _ hk => Json.noConfusion hk),
             imp_not_obj (fun _ hk => Json.noConfusion hk)⟩)
        | (rename_i cs0 c rest0 h1 h2 h3 h4 h5 h6 x0 lex0 hnum
           obtain ⟨d, hs, hd⟩ := parseNum_spec hnum
           refine ⟨d, hs, iff_not_obj ?_ (fun _ hk => Json.noConfusion hk),
             imp_not_obj (fun _ hk => Json.noConfusion hk)⟩
           intro hdd
           rw [hdd] at hd
           exact absurd hd (by decide))

end MinorProject

namespace MinorProject

theorem dropWhile_eq_self_of_head {p : Char → Bool} {l : List Char}
    (h : ∀ c, l.head? = some c → p c = false) : l.dropWhile p = l := by
  cases l with
  | nil => rfl
  | cons a t =>
      rw [List.dropWhile_cons, if_neg]
      simp [h a rfl]

/-- A parse that produced an object ends, up to trailing JSON whitespace, in
a closing brace. -/
theorem parseJsonL_obj_last {o : List Char} {kvs : List (String × Json)}
    (h : parseJsonL o = some (Json.obj kvs)) :
    o ≠ [] ∧ ∀ c, o.getLast? = some c → (jsonWs c = true ∨ c = '}') := by
  simp only [parseJsonL] at h
  split at h
  · rename_i pr v rest heq
    split at h
    · rename_i hall
      have hv : v = Json.obj kvs := Option.some.inj h
      obtain ⟨d, hsuf, hiff, -⟩ := parseVal_shape _ _ _ _ heq
      have hd : d = '}' := hiff.mpr ⟨kvs, hv⟩
      subst hd
      have hsuf2 : ('}' :: rest) <:+ o := hsuf.trans (skipWs_suffix o)
      have hone : o ≠ [] := by
        intro ho
        rw [ho] at hsuf2
        obtain ⟨t, ht⟩ := hsuf2
        exact absurd ht (by simp)
      refine ⟨hone, fun c hc => ?_⟩
      cases hr : rest with
      | nil =>
          rw [hr] at hsuf2
          have := lastQ_suffix hsuf2 (by simp)
          rw [this] at hc
          simp at hc
          exact Or.inr hc.symm
      | cons c0 t0 =>
          have hrsuf : rest <:+ o := suffix_weaken hsuf2
          have := lastQ_suffix hrsuf (by rw [hr]; simp)
          rw [this] at hc
          have hcmem : c ∈ rest := lastQ_mem hc
          exact Or.inl (List.all_eq_true.mp hall c hcmem)
    · cases h
  · cases h

/-- A text whose first character is neither whitespace nor an opening brace
but whose last character is a closing brace is not valid JSON. -/
theorem parseJsonL_none_shape {f : List Char}
    (hhead : ∀ c, f.head? = some c → jsonWs c = false ∧ ¬ c = '{')
    (hlast : f.getLast? = some '}') : parseJsonL f = none := by
  have hskip : skipWs f = f := dropWhile_eq_self_of_head (fun c hc => (hhead c hc).1)
  simp only [parseJsonL, hskip]
  cases hp : parseVal (f.length + 1) f with
  | none => rfl
  | some pr =>
      obtain ⟨v, rest⟩ := pr
      show (if rest.all (fun c => jsonWs c) then some v else none) = none
      obtain ⟨d, hsuf, hiff, hobj⟩ := parseVal_shape _ _ _ _ hp
      by_cases hrn : rest = []
      · rw [hrn] at hsuf
        have hfl : f.getLast? = some d := by
          rw [lastQ_suffix hsuf (by simp)]
          simp
        rw [hlast] at hfl
        have hd : d = '}' := (Option.some.inj hfl).symm
        have hv : ∃ kvs, v = Json.obj kvs := hiff.mp hd
        have hH : f.head? = some '{' := hobj hv
        exact absurd rfl (hhead '{' hH).2
      · have hrsuf : rest <:+ f := suffix_weaken hsuf
        have hrl : rest.getLast? = some '}' := by
          rw [← lastQ_suffix hrsuf hrn]
          exact hlast
        have hmem : '}' ∈ rest := lastQ_mem hrl
        have hfalse : rest.all (fun c => jsonWs c) = false := by
          by_contra hcon
          have := List.all_eq_true.mp (Bool.of_not_eq_false hcon) '}' hmem
          exact absurd this (by decide)
        have hcond : ¬ ((rest.all fun c => jsonWs c) = true) := by
          rw [hfalse]
          exact Bool.false_ne_true
        rw [if_neg hcond]

end MinorProject

namespace MinorProject

/-! ### C6 -/

/-- C6: a judge reply wrapped in a code fence has the slice from its first
opening brace to its last closing brace extracted and parsed — in particular
the concrete fenced reply parses to votedModelId X — and any reply that does
not parse as JSON yields a vote record with votedModelId null, no reasoning
and no score change, without aborting the round. -/
theorem fenced_json_parses :
    (∀ (s : String) (i j : Nat),
      fenceMarker.isPrefixOf (jsTrim s.toList) = true →
      (jsTrim s.toList).findIdx? (fun c => c == '{') = some i →
      lastBraceIdx (jsTrim s.toList) = some j →
      textToParse s = jsSlice (jsTrim s.toList) i (j + 1)) ∧
    judgeVotedId (JudgeOutcome.content fencedReply) = some "X" ∧
    (∀ s : String, parseJsonL (textToParse s) = none →
      (∀ a : ModelAnswer, mkVote a (JudgeOutcome.content s) =
        { judgeModelId := a.model, votedModelId := none, reasoning := none }) ∧
      (∀ scores : List (String × Nat),
        applyVote scores (judgeVotedId (JudgeOutcome.content s)) = scores)) := by
  refine ⟨?_, ?_, ?_⟩
  · intro s i j hfence hfi hlb
    simp only [textToParse, hfi, hlb, hfence, if_true]
  · rfl
  · intro s hnone
    have hv : judgeVotedId (JudgeOutcome.content s) = none := by
      simp only [judgeVotedId, hnone]
    have hr : judgeReasoning (JudgeOutcome.content s) = none := by
      simp only [judgeReasoning, hnone]
    refine ⟨fun a => ?_, fun scores => ?_⟩
    · simp only [mkVote, hv, hr]
    · rw [hv, applyVote_none]

/-- Witness for C6: the fence extraction at the concrete fenced reply (first
brace at 8, last at 47) and the null vote for a non-JSON reply. -/
theorem fenced_json_parses_witness :
    textToParse fencedReply = jsSlice (jsTrim fencedReply.toList) 8 48 ∧
    mkVote answerA (JudgeOutcome.content "not json") =
      { judgeModelId := "model-a", votedModelId := none, reasoning := none } :=
  ⟨fenced_json_parses.1 fencedReply 8 47 (by decide) (by decide) (by decide),
   (fenced_json_parses.2.2 "not json" (by rfl)).1 answerA⟩

/-! ### C10 -/

/-- C10: fence-stripping happens only when the trimmed reply starts with
three backticks; a reply that contains a valid JSON object but opens with
other text is parsed whole, the parse fails, and the judge's vote record is
null with no score change. -/
theorem fence_strip_prose_null :
    (∀ s : String, ¬ (fenceMarker.isPrefixOf (jsTrim s.toList) = true) →
      textToParse s = jsTrim s.toList) ∧
    (∀ (s : String) (p o : List Char) (kvs : List (String × Json)),
      jsTrim s.toList = p ++ o → p ≠ [] → p.head? ≠ some '{' →
      ¬ (fenceMarker.isPrefixOf (jsTrim s.toList) = true) →
      parseJsonL o = some (Json.obj kvs) →
      parseJsonL (textToParse s) = none ∧
      ∀ a : ModelAnswer, mkVote a (JudgeOutcome.content s) =
        { judgeModelId := a.model, votedModelId := none, reasoning := none }) := by
  have hpart1 : ∀ s : String, ¬ (fenceMarker.isPrefixOf (jsTrim s.toList) = true) →
      textToParse s = jsTrim s.toList := by
    intro s h1
    simp only [textToParse]
    rw [if_neg h1]
  refine ⟨hpart1, ?_⟩
  intro s p o kvs hdec hp hphead hfence hparse
  obtain ⟨hone, holast⟩ := parseJsonL_obj_last hparse
  have htext : textToParse s = jsTrim s.toList := hpart1 s hfence
  obtain ⟨c, pt, rfl⟩ := List.exists_cons_of_ne_nil hp
  have hfhead : (jsTrim s.toList).head? = some c := by
    rw [hdec]
    rfl
  have hctrim : jsTrimWs c = false := jsTrim_head_not_ws hfhead
  have hcws : jsonWs c = false := by
    by_contra hcon
    rw [jsonWs_of_jsTrimWs (Bool.of_not_eq_false hcon)] at hctrim
    exact absurd hctrim (by simp)
  have hcne : ¬ c = '{' := fun hcc => hphead (by rw [hcc]; rfl)
  have hlast_eq : (jsTrim s.toList).getLast? = o.getLast? := by
    rw [hdec]
    exact List.getLast?_append_of_ne_nil _ hone
  rcases List.eq_nil_or_concat o with rfl | ⟨L, dl, rfl⟩
  · exact absurd rfl hone
  · have hcl : (L.concat dl).getLast? = some dl := by
      rw [List.concat_eq_append, List.getLast?_append_of_ne_nil L (by simp)]
      rfl
    have hftrim : jsTrimWs dl = false := by
      refine @jsTrim_last_not_ws s.toList dl ?_
      rw [hlast_eq]
      exact hcl
    have hdl : dl = '}' := by
      rcases holast dl hcl with hws | hbr
      · rw [jsonWs_of_jsTrimWs hws] at hftrim
        exact absurd hftrim (by simp)
      · exact hbr
    have hnone : parseJsonL (jsTrim s.toList) = none := by
      refine parseJsonL_none_shape ?_ ?_
      · intro c2 hc2
        rw [hfhead] at hc2
        have hcc : c2 = c := (Option.some.inj hc2).symm
        subst hcc
        exact ⟨hcws, hcne⟩
      · rw [hlast_eq, hcl, hdl]
    have hnone2 : parseJsonL (textToParse s) = none := by
      rw [htext]
      exact hnone
    refine ⟨hnone2, fun a => ?_⟩
    have hv : judgeVotedId (JudgeOutcome.content s) = none := by
      simp only [judgeVotedId, hnone2]
    have hr : judgeReasoning (JudgeOutcome.content s) = none := by
      simp only [judgeReasoning, hnone2]
    simp only [mkVote, hv, hr]

/-- Witness for C10: a concrete prose-prefixed reply containing a valid JSON
object parses to nothing and yields a null vote. -/
theorem fence_strip_prose_null_witness :
    parseJsonL (textToParse proseReply) = none ∧
    mkVote answerA (JudgeOutcome.content proseReply) =
      { judgeModelId := "model-a", votedModelId := none, reasoning := none } :=
  ⟨(fence_strip_prose_null.2 proseReply prosePrefix proseObj
      [("winner_model_id", Json.str "X")]
      (by decide) (by decide) (by decide) (by decide) (by rfl)).1,
   (fence_strip_prose_null.2 proseReply prosePrefix proseObj
      [("winner_model_id", Json.str "X")]
      (by decide) (by decide) (by decide) (by decide) (by rfl)).2 answerA⟩

end MinorProject

namespace MinorProject

theorem runCrossEval_no_question (choices : List Choice) (o : Nat → JudgeOutcome) :
    runCrossEvaluation choices none o = none := by
  simp [runCrossEvaluation]

/-! ### C9 -/

/-- C9: in a successful turn the evaluation is computed from the content of
the last role-user message, and only when that content is a string; when
there is no user message, or the last user message's content is not a
string, the question is null and every evaluation — regardless of how many
valid candidates exist — returns null. -/
theorem question_from_last_user {apiKey : Option String} {b : ReqBody}
    {msgs : List ChatMsg} {fetch : String → BackendOutcome} {jo : Nat → JudgeOutcome}
    {resp : PostResponse} {calls : List String}
    (hmsgs : b.messages = MessagesField.present msgs)
    (hpost : POST apiKey (some b) fetch jo = (resp, calls))
    (hstatus : resp.status = 200) :
    resp.evaluation = runCrossEvaluation resp.choices (lastUserQuestion msgs) jo ∧
    (∀ m s, msgs.reverse.find? (fun mm => mm.role == "user") = some m →
      m.content = JsContent.str s → lastUserQuestion msgs = some s) ∧
    ((msgs.reverse.find? (fun mm => mm.role == "user") = none ∨
      ∃ m, msgs.reverse.find? (fun mm => mm.role == "user") = some m ∧
        ∀ s, m.content ≠ JsContent.str s) →
      lastUserQuestion msgs = none ∧
      ∀ (choices : List Choice) (o : Nat → JudgeOutcome),
        runCrossEvaluation choices (lastUserQuestion msgs) o = none) := by
  refine ⟨?_, ?_, ?_⟩
  · simp only [POST, hmsgs] at hpost
    repeat' split at hpost
    all_goals cases hpost
    all_goals first
    | rfl
    | (exact absurd hstatus (by simp))
  · intro m s hfind hc
    simp only [lastUserQuestion, hfind, hc]
  · intro hcase
    have hnone : lastUserQuestion msgs = none := by
      rcases hcase with hn | ⟨m, hm, hns⟩
      · simp only [lastUserQuestion, hn]
      · simp only [lastUserQuestion, hm]
        cases hc : m.content with
        | str s => exact absurd hc (hns s)
        | other t => simp only [hc]
    refine ⟨hnone, fun choices o => ?_⟩
    rw [hnone]
    exact runCrossEval_no_question choices o

/-- Witness for C9: a turn whose only user message has non-string content
succeeds with a null evaluation despite two valid candidates. -/
theorem question_from_last_user_witness :
    respNonString.evaluation =
      runCrossEvaluation respNonString.choices (lastUserQuestion msgsNonString)
        allFailOutcomes ∧
    lastUserQuestion msgsNonString = none :=
  ⟨(@question_from_last_user (some "k") reqBodyNonString msgsNonString okFetch
      allFailOutcomes respNonString [NVIDIA_MODEL, MISTRAL_MODEL]
      rfl (by decide) rfl).1,
   ((@question_from_last_user (some "k") reqBodyNonString msgsNonString okFetch
      allFailOutcomes respNonString [NVIDIA_MODEL, MISTRAL_MODEL]
      rfl (by decide) rfl).2.2
     (Or.inr ⟨{ role := "user", content := JsContent.other "imgparts" }, rfl,
       fun s h => JsContent.noConfusion h⟩)).1⟩

/-! ### C8 -/

/-- C8 counterexample: "every backend call failed" also happens when every
fetch rejects at the transport level; the `Promise.all` rejection then
lands in the catch of line 438 and the handler answers 500 "Failed to call
OpenRouter API" — not the claimed 502 with per-backend details.  And a
request body that parses to JSON null crashes `body.messages` (line 245,
outside the try block that starts at line 264): the framework's generic
500 for the uncaught TypeError, not the claimed 400. -/
theorem post_all_rejected_cex :
    POST (some "k") (some reqBodyOk) (fun _m => BackendOutcome.reject) allFailOutcomes
      = (resp500Failed, allModelIds) ∧
    POSTraw (some "k") BodyCase.jsNull (fun _m => BackendOutcome.reject) allFailOutcomes
      = PostResult.uncaught :=
  ⟨by decide, by decide⟩

/-- C8 (amended): over the full body domain the handler returns 500 before
any parsing or network call when the credential is missing; 400 when the
parsed body lacks a usable messages array, and when the filtered backend
selection is empty (no backend call in either case, unknown selection ids
silently ignored); 502 with one status entry per selected backend when
every backend call failed WITH an HTTP error response; 500 "Failed to call
OpenRouter API" when any backend fetch rejected at the transport level (so
an all-rejected batch gets 500, not 502); and an uncaught TypeError — a
framework 500, not the 400 — when the body parses to JSON null. -/
theorem post_error_responses_full (apiKey : Option String) (body : BodyCase) (b : ReqBody)
    (fetch : String → BackendOutcome) (jo : Nat → JudgeOutcome) :
    (apiKey = none ∨ apiKey = some "" →
      POSTraw apiKey body fetch jo = PostResult.resp resp500MissingKey []) ∧
    (∀ k, apiKey = some k → ¬ k = "" →
      (b.messages = MessagesField.missing ∨ b.messages = MessagesField.notArray) →
      POSTraw apiKey (BodyCase.obj b) fetch jo = PostResult.resp resp400Msgs []) ∧
    (∀ k msgs, apiKey = some k → ¬ k = "" →
      b.messages = MessagesField.present msgs →
      modelsToCall b.activeModels = [] →
      POSTraw apiKey (BodyCase.obj b) fetch jo = PostResult.resp resp400Sel []) ∧
    (∀ (items : List ActiveItem) (s : String), s ∉ allModelIds →
      modelsToCall (ActiveModelsField.present (items ++ [ActiveItem.strItem s])) =
        modelsToCall (ActiveModelsField.present items)) ∧
    (∀ k msgs, apiKey = some k → ¬ k = "" →
      b.messages = MessagesField.present msgs →
      ¬ modelsToCall b.activeModels = [] →
      (∀ m ∈ modelsToCall b.activeModels,
        ∃ st t, fetch m = BackendOutcome.failResp st t) →
      POSTraw apiKey (BodyCase.obj b) fetch jo =
        PostResult.resp
          (resp502Of ((modelsToCall b.activeModels).map
            (fun m => (m, statusEntry (fetch m)))))
          (modelsToCall b.activeModels)) ∧
    (∀ k msgs, apiKey = some k → ¬ k = "" →
      b.messages = MessagesField.present msgs →
      ¬ modelsToCall b.activeModels = [] →
      (∃ m ∈ modelsToCall b.activeModels, fetch m = BackendOutcome.reject) →
      POSTraw apiKey (BodyCase.obj b) fetch jo =
        PostResult.resp resp500Failed (modelsToCall b.activeModels)) ∧
    (∀ k, apiKey = some k → ¬ k = "" →
      POSTraw apiKey BodyCase.jsNull fetch jo = PostResult.uncaught) := by
  have hkeyne : ∀ k : String, apiKey = some k → ¬ k = "" →
      ¬ (apiKey = none ∨ apiKey = some "") := by
    rintro k hk hkne (h | h)
    · rw [hk] at h
      cases h
    · rw [hk] at h
      exact hkne (Option.some.inj h)
  refine ⟨?_, ?_, ?_, ?_, ?_, ?_, ?_⟩
  · intro h
    simp only [POSTraw]
    rw [if_pos h]
    rfl
  · intro k hk hkne hbad
    have hpost : POST apiKey (some b) fetch jo =
        ({ status := 400, error := some "'messages' array is required",
           details := none, choices := [], evaluation := none, modelStatuses := none },
         []) := by
      rcases hbad with hb | hb <;>
        (simp only [POST, hb]
         rw [if_neg (hkeyne k hk hkne)])
    simp only [POSTraw]
    rw [if_neg (hkeyne k hk hkne), hpost]
    rfl
  · intro k msgs hk hkne hmsgs hempty
    have hpost : POST apiKey (some b) fetch jo =
        ({ status := 400, error := some "No models selected to call",
           details := none, choices := [], evaluation := none, modelStatuses := none },
         []) := by
      simp only [POST, hmsgs]
      rw [if_neg (hkeyne k hk hkne)]
      rw [if_pos hempty]
    simp only [POSTraw]
    rw [if_neg (hkeyne k hk hkne), hpost]
    rfl
  · intro items s hs
    simp only [modelsToCall, activeFilter]
    rw [List.filterMap_append]
    refine List.filter_congr ?_
    intro m hm
    simp only [List.contains, List.elem_eq_mem]
    refine decide_eq_decide.mpr ?_
    rw [List.mem_append]
    constructor
    · rintro (h | h)
      · exact h
      · exfalso
        rcases List.mem_filterMap.mp h with ⟨it, hit, hfit⟩
        have hit2 : it = ActiveItem.strItem s := by simpa using hit
        subst hit2
        dsimp only at hfit
        split at hfit
        · have hsm : s = m := Option.some.inj hfit
          refine hs ?_
          rw [hsm]
          exact hm
        · cases hfit
    · intro h
      exact Or.inl h
  · intro k msgs hk hkne hmsgs hne hfail
    have hpost : POST apiKey (some b) fetch jo =
        ({ status := 502, error := some "OpenRouter API error",
           details := some ((modelsToCall b.activeModels).map
             (fun m => (m, statusEntry (fetch m)))),
           choices := [], evaluation := none, modelStatuses := none },
         modelsToCall b.activeModels) := by
      simp only [POST, hmsgs]
      rw [if_neg (hkeyne k hk hkne)]
      rw [if_neg hne]
      have hrej : ((modelsToCall b.activeModels).any
          (fun m => backendRejected (fetch m))) = false := by
        rw [List.any_eq_false]
        intro m hm
        obtain ⟨st, t, hmf⟩ := hfail m hm
        rw [hmf]
        simp [backendRejected]
      rw [if_neg (by rw [hrej]; exact Bool.false_ne_true)]
      have hsucc : (modelsToCall b.activeModels).filter
          (fun m => isOkOutcome (fetch m)) = [] := by
        rw [List.filter_eq_nil_iff]
        intro m hm
        obtain ⟨st, t, hmf⟩ := hfail m hm
        rw [hmf]
        simp [isOkOutcome]
      rw [hsucc]
      rw [if_pos rfl]
    simp only [POSTraw]
    rw [if_neg (hkeyne k hk hkne), hpost]
    rfl
  · intro k msgs hk hkne hmsgs hne hrej
    obtain ⟨m, hm, hmf⟩ := hrej
    have hpost : POST apiKey (some b) fetch jo =
        ({ status := 500, error := some "Failed to call OpenRouter API",
           details := none, choices := [], evaluation := none, modelStatuses := none },
         modelsToCall b.activeModels) := by
      simp only [POST, hmsgs]
      rw [if_neg (hkeyne k hk hkne)]
      rw [if_neg hne]
      rw [if_pos (show ((modelsToCall b.activeModels).any
          (fun m => backendRejected (fetch m))) = true from
        List.any_eq_true.mpr ⟨m, hm, by rw [hmf]; rfl⟩)]
    simp only [POSTraw]
    rw [if_neg (hkeyne k hk hkne), hpost]
    rfl
  · intro k hk hkne
    simp only [POSTraw]
    rw [if_neg (hkeyne k hk hkne)]

/-- Witness for the amended C8: all seven branches at concrete inputs —
missing key, missing messages, empty selection, an ignored unknown id, a
total-HTTP-failure 502 with one entry per backend, an all-rejected 500, and
the null-body crash. -/
theorem post_error_responses_full_witness :
    POSTraw none (BodyCase.obj reqBodyOk) failFetch allFailOutcomes
      = PostResult.resp resp500MissingKey [] ∧
    POSTraw (some "k") (BodyCase.obj reqBodyNoMsgs) failFetch allFailOutcomes
      = PostResult.resp resp400Msgs [] ∧
    POSTraw (some "k") (BodyCase.obj reqBodyEmptySel) failFetch allFailOutcomes
      = PostResult.resp resp400Sel [] ∧
    modelsToCall (ActiveModelsField.present
        [ActiveItem.strItem MISTRAL_MODEL, ActiveItem.strItem "no-such-model"]) =
      modelsToCall (ActiveModelsField.present [ActiveItem.strItem MISTRAL_MODEL]) ∧
    POSTraw (some "k") (BodyCase.obj reqBodyOk) failFetch allFailOutcomes
      = PostResult.resp resp502All allModelIds ∧
    POSTraw (some "k") (BodyCase.obj reqBodyOk) (fun _m => BackendOutcome.reject)
      allFailOutcomes = PostResult.resp resp500Failed allModelIds ∧
    POSTraw (some "k") BodyCase.jsNull failFetch allFailOutcomes = PostResult.uncaught :=
  ⟨(post_error_responses_full none (BodyCase.obj reqBodyOk) reqBodyOk failFetch
      allFailOutcomes).1 (Or.inl rfl),
   (post_error_responses_full (some "k") (BodyCase.obj reqBodyNoMsgs) reqBodyNoMsgs
      failFetch allFailOutcomes).2.1 "k" rfl (by decide) (Or.inl rfl),
   (post_error_responses_full (some "k") (BodyCase.obj reqBodyEmptySel) reqBodyEmptySel
      failFetch allFailOutcomes).2.2.1 "k"
      [{ role := "user", content := JsContent.str "Q" }] rfl (by decide) rfl (by decide),
   (post_error_responses_full (some "k") (BodyCase.obj reqBodyOk) reqBodyOk failFetch
      allFailOutcomes).2.2.2.1 [ActiveItem.strItem MISTRAL_MODEL] "no-such-model"
      (by decide),
   (post_error_responses_full (some "k") (BodyCase.obj reqBodyOk) reqBodyOk failFetch
      allFailOutcomes).2.2.2.2.1 "k"
      [{ role := "user", content := JsContent.str "Q" }] rfl (by decide) rfl (by decide)
      (fun m hm => ⟨429, some "rate limited", rfl⟩),
   (post_error_responses_full (some "k") (BodyCase.obj reqBodyOk) reqBodyOk
      (fun _m => BackendOutcome.reject) allFailOutcomes).2.2.2.2.2.1 "k"
      [{ role := "user", content := JsContent.str "Q" }] rfl (by decide) rfl (by decide)
      ⟨NVIDIA_MODEL, by decide, rfl⟩,
   (post_error_responses_full (some "k") BodyCase.jsNull reqBodyOk failFetch
      allFailOutcomes).2.2.2.2.2.2 "k" rfl (by decide)⟩

end MinorProject
